import Mathlib

/-!
Shallow embedding of `pxr/imaging/hdx/drawTargetTask.cpp` (the HdxDrawTargetTask
render task): draw-target dependency discovery, topological sorting with cycle
fallback, the incremental `Sync` logic, per-target render-pass state derivation,
and the `Execute` phase's draw/resolve ordering.

Scene paths (`SdfPath`) are modelled as lists of path components;
`SdfPath::HasPrefix` is component-wise list-prefix.  Machine integers used here
(version counters, sizes) never overflow in the source's domain and are
modelled as `Nat`; the draw-target resolution (`GfVec2i`) is a pair of `Int`.
Opaque external values that the task only copies around (colors, AOV bindings,
light lists, ...) are modelled by `Nat` or `ℚ` tokens.  Matrices produced by
the external camera/conform utilities are modelled symbolically, recording the
arguments of the external calls.
-/

abbrev SdfPath := List String

/-- `SdfPath::HasPrefix p q`: `q` is an ancestor of (or equal to) `p`. -/
def sdfHasPfx (path p : SdfPath) : Bool :=
  p.isPrefixOf path

structure HdRprimCollection where
  rootPaths : List SdfPath
  excludePaths : List SdfPath
deriving DecidableEq, Inhabited

/-- `_DoesCollectionContainPath`: excluded paths win, then root paths include. -/
def _DoesCollectionContainPath (collection : HdRprimCollection) (path : SdfPath) : Bool :=
  if collection.excludePaths.any (fun excludePath => sdfHasPfx path excludePath) then
    false
  else
    collection.rootPaths.any (fun rootPath => sdfHasPfx path rootPath)

inductive HdCompareFunction where
  | HdCmpFuncNever
  | HdCmpFuncLess
  | HdCmpFuncEqual
  | HdCmpFuncLEqual
  | HdCmpFuncGreater
  | HdCmpFuncNotEqual
  | HdCmpFuncGEqual
  | HdCmpFuncAlways
deriving DecidableEq, Inhabited

inductive HdDepthPriority where
  | HdDepthPriorityNearest
  | HdDepthPriorityFarthest
deriving DecidableEq, Inhabited

/-- `HdxDrawTargetTask_GetResolvedDepthFunc`: the fixed 2x8 lookup table
`ResolvedDepthFunc[priority][depthFunc]`, transcribed cell by cell. -/
def HdxDrawTargetTask_GetResolvedDepthFunc
    (depthFunc : HdCompareFunction) (priority : HdDepthPriority) : HdCompareFunction :=
  match priority, depthFunc with
  | .HdDepthPriorityNearest, .HdCmpFuncNever => .HdCmpFuncNever
  | .HdDepthPriorityNearest, .HdCmpFuncLess => .HdCmpFuncLess
  | .HdDepthPriorityNearest, .HdCmpFuncEqual => .HdCmpFuncEqual
  | .HdDepthPriorityNearest, .HdCmpFuncLEqual => .HdCmpFuncLEqual
  | .HdDepthPriorityNearest, .HdCmpFuncGreater => .HdCmpFuncGreater
  | .HdDepthPriorityNearest, .HdCmpFuncNotEqual => .HdCmpFuncNotEqual
  | .HdDepthPriorityNearest, .HdCmpFuncGEqual => .HdCmpFuncGEqual
  | .HdDepthPriorityNearest, .HdCmpFuncAlways => .HdCmpFuncAlways
  | .HdDepthPriorityFarthest, .HdCmpFuncNever => .HdCmpFuncNever
  | .HdDepthPriorityFarthest, .HdCmpFuncLess => .HdCmpFuncGEqual
  | .HdDepthPriorityFarthest, .HdCmpFuncEqual => .HdCmpFuncEqual
  | .HdDepthPriorityFarthest, .HdCmpFuncLEqual => .HdCmpFuncGreater
  | .HdDepthPriorityFarthest, .HdCmpFuncGreater => .HdCmpFuncLEqual
  | .HdDepthPriorityFarthest, .HdCmpFuncNotEqual => .HdCmpFuncNotEqual
  | .HdDepthPriorityFarthest, .HdCmpFuncGEqual => .HdCmpFuncLess
  | .HdDepthPriorityFarthest, .HdCmpFuncAlways => .HdCmpFuncAlways

/-- The GLF draw target: the underlying GPU surface handle. -/
structure GlfDrawTarget where
  surfaceId : Nat
deriving DecidableEq, Inhabited

/-- `HdStDrawTargetRenderPassState`: the render-target-specific pass state
carried by a draw target (camera id, depth priority, AOV bindings). -/
structure HdStDrawTargetRenderPassState where
  camera : SdfPath
  depthPriority : HdDepthPriority
  aovBindings : Nat
deriving DecidableEq, Inhabited

/-- `HdStDrawTarget` as seen through the accessors this task uses. -/
structure HdStDrawTarget where
  id : SdfPath
  enabled : Bool
  version : Nat
  collection : HdRprimCollection
  resolution : Int × Int
  renderPassState : HdStDrawTargetRenderPassState
  glfDrawTarget : Option GlfDrawTarget
deriving DecidableEq, Inhabited

/-- `_IsDependentOn(drawTargets[dependent], drawTargets[dependency])`.
In `_SortDrawTargets` the two arguments are slots of the vector produced by
`HdStDrawTarget::GetDrawTargets`, which holds distinct non-null prim pointers,
so the null checks pass and pointer inequality is inequality of the indices.
The collection containment is read off the indexed targets. -/
def _IsDependentOn (dts : List HdStDrawTarget) (dependent dependency : Nat) : Bool :=
  dependent != dependency &&
    _DoesCollectionContainPath (dts.getD dependent default).collection
      (dts.getD dependency default).id

/-- `indexToDependencies[dependent]`: the `std::set` of indices of draw
targets that `dependent` depends on (built by the O(n^2) double loop). -/
def indexToDependencies (dts : List HdStDrawTarget) (dependent : Nat) : Finset Nat :=
  (Finset.range dts.length).filter (fun dependency => _IsDependentOn dts dependent dependency)

/-- `indexToDependents[dependency]`: indices of draw targets depending on
`dependency`, in push-back (ascending) order. -/
def indexToDependents (dts : List HdStDrawTarget) (dependency : Nat) : List Nat :=
  (List.range dts.length).filter (fun dependent => _IsDependentOn dts dependent dependency)

/-- `_DrawTargetEntry`: information returned by the topological sort. -/
structure _DrawTargetEntry where
  originalIndex : Nat
  drawTarget : HdStDrawTarget
  hasDependentDrawTargets : Bool
deriving DecidableEq, Inhabited

/-- The initial scheduling pass: draw targets that do not depend on any other
draw target, in original discovery order. -/
def _InitialEntries (dts : List HdStDrawTarget) : List _DrawTargetEntry :=
  (List.range dts.length).filterMap (fun dependent =>
    if indexToDependencies dts dependent = ∅ then
      some ⟨dependent, dts.getD dependent default, false⟩
    else none)

/-- The inner loop of the main sorting pass: for each draw target depending on
the just-scheduled `dependency`, erase `dependency` from its dependency set and,
if that was its last dependency, schedule it. -/
def _ScheduleDependents (dts : List HdStDrawTarget) (dependency : Nat) :
    List Nat → (Nat → Finset Nat) → ((Nat → Finset Nat) × List _DrawTargetEntry)
  | [], deps => (deps, [])
  | dependent :: rest, deps =>
    let deps' := Function.update deps dependent ((deps dependent).erase dependency)
    let pushed :=
      if deps' dependent = ∅ then
        [(⟨dependent, dts.getD dependent default, false⟩ : _DrawTargetEntry)]
      else []
    let tail := _ScheduleDependents dts dependency rest deps'
    (tail.1, pushed ++ tail.2)

/-- The main sorting pass of `_SortDrawTargets`: iterate through all scheduled
draw targets while scheduling new draw targets.  The C++ loop walks the result
vector by index while appending to it; here `done` holds the already-processed
prefix and `todo` the rest of the same vector.  Processing an entry marks its
`hasDependentDrawTargets` flag, which the C++ sets once per dependent, i.e.
exactly when its dependent list is non-empty (entries are pushed with the flag
false and processed once).  The loop runs at most `n` iterations (the result
holds each index at most once), so fuel `n + 1` never runs out. -/
def _SortLoop (dts : List HdStDrawTarget) :
    Nat → (Nat → Finset Nat) → List _DrawTargetEntry → List _DrawTargetEntry →
    ((Nat → Finset Nat) × List _DrawTargetEntry)
  | 0, deps, done, todo => (deps, done ++ todo)
  | fuel + 1, deps, done, todo =>
    match todo with
    | [] => (deps, done)
    | entry :: rest =>
      let dependents := indexToDependents dts entry.originalIndex
      let step := _ScheduleDependents dts entry.originalIndex dependents deps
      let entry' := { entry with hasDependentDrawTargets := !dependents.isEmpty }
      _SortLoop dts fuel step.1 (done ++ [entry']) (rest ++ step.2)

/-- `_SortDrawTargets`: topologically sort draw targets; if cycles left some
draw targets unscheduled, append them in the order they were given originally.
(The trailing `TF_CODING_ERROR("Mismatch")` check only emits a diagnostic and
is proved unreachable below.) -/
def _SortRun (dts : List HdStDrawTarget) :
    ((Nat → Finset Nat) × List _DrawTargetEntry) :=
  _SortLoop dts (dts.length + 1) (indexToDependencies dts) [] (_InitialEntries dts)

def _SortDrawTargets (dts : List HdStDrawTarget) : List _DrawTargetEntry :=
  if dts.isEmpty then []
  else
    let n := dts.length
    let run := _SortRun dts
    if run.2.length < n then
      run.2 ++ (List.range n).filterMap (fun i =>
        if run.1 i ≠ ∅ then some ⟨i, dts.getD i default, false⟩ else none)
    else run.2

/-!
## Sync / Prepare / Execute state

`GfMatrix4d` values coming from the external camera and conform utilities are
represented symbolically: `base` is a scene-supplied matrix, `conformed`
records a `CameraUtilConformedWindow(proj, policy, aspect)` call and
`yflipped` a multiplication by the fixed y-flip scale matrix.
-/

inductive GfMatrix4d where
  | base (matrixId : Nat)
  | conformed (m : GfMatrix4d) (policy : Nat) (aspect : ℚ)
  | yflipped (m : GfMatrix4d)
deriving DecidableEq, Inhabited

structure HdCamera where
  viewMatrix : GfMatrix4d
  projectionMatrix : GfMatrix4d
  windowPolicy : Nat
  clipPlanes : Nat
deriving DecidableEq, Inhabited

/-- The shared `GlfSimpleLightingContext` found in the task context. -/
structure GlfSimpleLightingContext where
  useLighting : Bool
  lights : Nat
  material : Nat
  sceneAmbient : Nat
  shadows : Nat
  useColorMaterialDiffuse : Bool
deriving DecidableEq, Inhabited

/-- `HdStSimpleLightingShader`, through its own lighting context. -/
structure HdStSimpleLightingShader where
  useLighting : Bool
  lights : Nat
  material : Nat
  sceneAmbient : Nat
  shadows : Nat
  useColorMaterialDiffuse : Bool
  cameraView : GfMatrix4d
  cameraProjection : GfMatrix4d
deriving DecidableEq, Inhabited

/-- `HdStRenderPassState` as driven by this task.  `viewport` stores the
`(width, height)` of `GfVec4d(0, 0, width, height)`. -/
structure HdStRenderPassState where
  overrideColor : ℚ
  wireframeColor : ℚ
  lightingEnabled : Bool
  alphaThreshold : ℚ
  cullStyle : Nat
  depthFunc : HdCompareFunction
  aovBindings : Nat
  lightingShaderBound : Bool
  viewMatrix : GfMatrix4d
  projectionMatrix : GfMatrix4d
  viewport : Int × Int
  clipPlanes : Nat
deriving DecidableEq, Inhabited

/-- `HdxDrawTargetRenderPass` as driven by this task: the GLF draw target it
renders into, the draw target's render-pass state, and the dependent flag. -/
structure HdxDrawTargetRenderPass where
  drawTarget : Option GlfDrawTarget
  drawTargetRenderPassState : HdStDrawTargetRenderPassState
  hasDependentDrawTargets : Bool
deriving DecidableEq, Inhabited

/-- `HdxDrawTargetTask::_RenderPassInfo`.  The C++ `target` member is a
pointer to the live draw target; it is modelled by the target's scene path,
resolved against the current scene on each use. -/
structure _RenderPassInfo where
  renderPassState : HdStRenderPassState
  simpleLightingShader : HdStSimpleLightingShader
  target : SdfPath
  version : Nat
deriving DecidableEq, Inhabited

structure HdxDrawTargetTaskParams where
  overrideColor : ℚ
  wireframeColor : ℚ
  enableLighting : Bool
  alphaThreshold : ℚ
  depthBiasUseDefault : Bool
  depthBiasEnable : Bool
  depthBiasConstantFactor : ℚ
  depthBiasSlopeFactor : ℚ
  depthFunc : HdCompareFunction
  cullStyle : Nat
deriving DecidableEq, Inhabited

structure HdxDrawTargetTask where
  currentDrawTargetSetVersion : Nat
  renderPassesInfo : List _RenderPassInfo
  renderPasses : List HdxDrawTargetRenderPass
  overrideColor : ℚ
  wireframeColor : ℚ
  enableLighting : Bool
  alphaThreshold : ℚ
  depthBiasUseDefault : Bool
  depthBiasEnable : Bool
  depthBiasConstantFactor : ℚ
  depthBiasSlopeFactor : ℚ
  depthFunc : HdCompareFunction
  cullStyle : Nat
  enableSampleAlphaToCoverage : Bool
  renderTags : List String
deriving DecidableEq, Inhabited

/-- Token value standing for `HdCullStyleBackUnlessDoubleSided`. -/
def HdCullStyleBackUnlessDoubleSided : Nat := 4

/-- The constructor `HdxDrawTargetTask::HdxDrawTargetTask`. -/
def HdxDrawTargetTask.ctor : HdxDrawTargetTask :=
  { currentDrawTargetSetVersion := 0
    renderPassesInfo := []
    renderPasses := []
    overrideColor := 0
    wireframeColor := 0
    enableLighting := false
    alphaThreshold := 0
    depthBiasUseDefault := true
    depthBiasEnable := false
    depthBiasConstantFactor := 0
    depthBiasSlopeFactor := 1
    depthFunc := .HdCmpFuncLEqual
    cullStyle := HdCullStyleBackUnlessDoubleSided
    enableSampleAlphaToCoverage := true
    renderTags := [] }

/-- The dirty-bit mask handed to `Sync`.  `otherBits` stands for all bits the
task does not consume; `HdChangeTracker::Clean` is the all-clear mask. -/
structure HdDirtyBits where
  dirtyParams : Bool
  dirtyRenderTags : Bool
  otherBits : Bool
deriving DecidableEq, Inhabited

def HdDirtyBits.clean : HdDirtyBits :=
  { dirtyParams := false, dirtyRenderTags := false, otherBits := false }

/-- The scene/delegate environment a `Sync` call observes: task parameters
(`none` models `_GetTaskParams` failing), render tags, the draw-target-set
state version, the draw targets enumerated by `HdStDrawTarget::GetDrawTargets`,
the camera sprims, the optional shared lighting context from the task context,
and the two alpha-to-coverage switches. -/
structure HdSceneDelegate where
  taskParams : Option HdxDrawTargetTaskParams
  taskRenderTags : List String
  drawTargetSetVersion : Nat
  drawTargets : List HdStDrawTarget
  cameras : List (SdfPath × HdCamera)
  lightingContext : Option GlfSimpleLightingContext
  taskSetAlphaToCoverage : Bool
  debugDisableAlphaToCoverage : Bool
deriving DecidableEq, Inhabited

def HdSceneDelegate.findDrawTarget (delegate : HdSceneDelegate) (path : SdfPath) :
    Option HdStDrawTarget :=
  delegate.drawTargets.find? (fun t => t.id == path)

/-- Dereference a stored draw-target pointer: the pointee always exists while
the pass list is alive, so the `getD default` fallback is never taken for the
states `Sync` actually builds. -/
def HdSceneDelegate.derefDrawTarget (delegate : HdSceneDelegate) (path : SdfPath) :
    HdStDrawTarget :=
  (delegate.findDrawTarget path).getD default

def HdSceneDelegate.getCamera (delegate : HdSceneDelegate) (path : SdfPath) :
    Option HdCamera :=
  (delegate.cameras.find? (fun c => c.1 == path)).map Prod.snd

/-!
## Sync
-/

/-- The stale-path rebuild (draw-target-set version changed): one render pass
and one `_RenderPassInfo` per *enabled* draw target, in sorted order.  The
null-pointer guard on `entry.drawTarget` always passes, since the entries hold
the targets enumerated from the render index. -/
def _BuildRenderPasses (entries : List _DrawTargetEntry) :
    List HdxDrawTargetRenderPass × List _RenderPassInfo :=
  let enabled := entries.filter (fun entry => entry.drawTarget.enabled)
  (enabled.map (fun entry =>
      { drawTarget := entry.drawTarget.glfDrawTarget
        drawTargetRenderPassState := entry.drawTarget.renderPassState
        hasDependentDrawTargets := entry.hasDependentDrawTargets }),
   enabled.map (fun entry =>
      { renderPassState := default
        simpleLightingShader := default
        target := entry.drawTarget.id
        version := entry.drawTarget.version }))

/-- The fresh-path loop (draw-target-set version unchanged): for each render
pass, if the cached version differs from the draw target's live version, point
the pass at the target's current GLF draw target and update the cached
version.  The C++ indexes `_renderPasses` with the `_renderPassesInfo` loop
index; the two vectors always have equal length. -/
def _UpdateRenderPasses (delegate : HdSceneDelegate)
    (infos : List _RenderPassInfo) (passes : List HdxDrawTargetRenderPass) :
    List _RenderPassInfo × List HdxDrawTargetRenderPass :=
  let updated := (infos.zip passes).map (fun ip =>
    let target := delegate.derefDrawTarget ip.1.target
    let targetVersion := target.version
    if ip.1.version != targetVersion then
      ({ ip.1 with version := targetVersion },
       { ip.2 with drawTarget := target.glfDrawTarget })
    else ip)
  (updated.map Prod.fst, updated.map Prod.snd)

/-- The aspect argument of the `CameraUtilConformedWindow` call:
`resolution[1] != 0.0 ? resolution[0] / resolution[1] : 1.0`.  The components
of the `GfVec2i` are C `int`s, so the division is integer division truncating
toward zero (`Int.tdiv`), converted to `double` at the call. -/
def _ConformAspect (resolution : Int × Int) : ℚ :=
  if resolution.2 ≠ 0 then ((Int.tdiv resolution.1 resolution.2 : Int) : ℚ) else 1

/-- One iteration of the per-target render-state loop of `Sync` (the body of
the loop over `_renderPassesInfo`): resolve the camera (`none` = the
`TF_CODING_ERROR` early return), resolve the depth function against the draw
priority, update the raster state, bind the lighting shader, build the
conformed and y-flipped projection, and propagate the shared lighting
context.  `renderPassState->Prepare` and `renderPass->Sync()` act on external
resources and have no modelled state. -/
def _SyncRenderPassState (delegate : HdSceneDelegate) (task : HdxDrawTargetTask)
    (info : _RenderPassInfo) : Option _RenderPassInfo :=
  let drawTarget := delegate.derefDrawTarget info.target
  let drawTargetRenderPassState := drawTarget.renderPassState
  let cameraId := drawTargetRenderPassState.camera
  match delegate.getCamera cameraId with
  | none => none
  | some camera =>
    let depthFunc :=
      HdxDrawTargetTask_GetResolvedDepthFunc task.depthFunc
        drawTargetRenderPassState.depthPriority
    let resolution := drawTarget.resolution
    let viewMatrix := camera.viewMatrix
    let projectionMatrix :=
      GfMatrix4d.yflipped
        (GfMatrix4d.conformed camera.projectionMatrix camera.windowPolicy
          (_ConformAspect resolution))
    let shader := info.simpleLightingShader
    let shader :=
      { shader with cameraView := viewMatrix, cameraProjection := projectionMatrix }
    let shader :=
      match delegate.lightingContext with
      | some lightingContext =>
        { shader with
            useLighting := lightingContext.useLighting
            lights := lightingContext.lights
            material := lightingContext.material
            sceneAmbient := lightingContext.sceneAmbient
            shadows := lightingContext.shadows
            useColorMaterialDiffuse := lightingContext.useColorMaterialDiffuse }
      | none => shader
    some { info with
      renderPassState :=
        { info.renderPassState with
            overrideColor := task.overrideColor
            wireframeColor := task.wireframeColor
            lightingEnabled := task.enableLighting
            alphaThreshold := task.alphaThreshold
            cullStyle := task.cullStyle
            depthFunc := depthFunc
            aovBindings := drawTargetRenderPassState.aovBindings
            lightingShaderBound := true
            viewMatrix := viewMatrix
            projectionMatrix := projectionMatrix
            viewport := resolution
            clipPlanes := camera.clipPlanes }
      simpleLightingShader := shader }

/-- The per-target render-state loop: process entries in order; a missing
camera returns from `Sync`, so the current and all later entries keep their
previous state.  The boolean reports whether the loop was aborted. -/
def _SyncRenderPassStates (delegate : HdSceneDelegate) (task : HdxDrawTargetTask) :
    List _RenderPassInfo → List _RenderPassInfo × Bool
  | [] => ([], false)
  | info :: rest =>
    match _SyncRenderPassState delegate task info with
    | none => (info :: rest, true)
    | some info' =>
      let tail := _SyncRenderPassStates delegate task rest
      (info' :: tail.1, tail.2)

/-- The result of one `Sync` call: the new task state, the value published
into the task context under `HdxTokens->drawTargetRenderPasses` (`none` when
the publish line was never reached), and the dirty bits left behind. -/
structure SyncResult where
  task : HdxDrawTargetTask
  ctxDrawTargetRenderPasses : Option (List HdxDrawTargetRenderPass)
  dirtyBits : HdDirtyBits
deriving DecidableEq, Inhabited

/-- The raster/depth state copied from fetched task params
(`Sync`, `DirtyParams` branch). -/
def _SyncUpdateParams (task : HdxDrawTargetTask)
    (params : HdxDrawTargetTaskParams) : HdxDrawTargetTask :=
  { task with
      wireframeColor := params.wireframeColor
      enableLighting := params.enableLighting
      overrideColor := params.overrideColor
      alphaThreshold := params.alphaThreshold
      cullStyle := params.cullStyle
      depthBiasUseDefault := params.depthBiasUseDefault
      depthBiasEnable := params.depthBiasEnable
      depthBiasConstantFactor := params.depthBiasConstantFactor
      depthBiasSlopeFactor := params.depthBiasSlopeFactor
      depthFunc := params.depthFunc }

/-- The draw-target-set version dispatch of `Sync`: full rebuild when the set
version moved (stale), per-target refresh otherwise (fresh). -/
def _SyncVersionStep (task : HdxDrawTargetTask) (delegate : HdSceneDelegate) :
    HdxDrawTargetTask :=
  let drawTargetVersion := delegate.drawTargetSetVersion
  if task.currentDrawTargetSetVersion != drawTargetVersion then
    let drawTargetEntries := _SortDrawTargets delegate.drawTargets
    let built := _BuildRenderPasses drawTargetEntries
    { task with
        renderPasses := built.1
        renderPassesInfo := built.2
        currentDrawTargetSetVersion := drawTargetVersion }
  else
    let updated := _UpdateRenderPasses delegate task.renderPassesInfo task.renderPasses
    { task with renderPassesInfo := updated.1, renderPasses := updated.2 }

/-- The tail of `Sync` after the version dispatch: publish the pass list into
the task context (`(*ctx)[HdxTokens->drawTargetRenderPasses]` — this happens
before the render-state loop, and the pass vector is not modified after), run
the per-target render-state loop, and, unless a missing camera aborted the
loop, force the alpha-to-coverage flag and clear the dirty bits. -/
def _SyncFinish (task : HdxDrawTargetTask) (delegate : HdSceneDelegate)
    (dirtyBits : HdDirtyBits) : SyncResult :=
  let published := task.renderPasses
  let loop := _SyncRenderPassStates delegate task task.renderPassesInfo
  let task := { task with renderPassesInfo := loop.1 }
  if loop.2 then
    { task := task, ctxDrawTargetRenderPasses := some published, dirtyBits := dirtyBits }
  else
    let enableSampleAlphaToCoverage :=
      if delegate.taskSetAlphaToCoverage then
        if delegate.debugDisableAlphaToCoverage then false else true
      else true
    let task := { task with enableSampleAlphaToCoverage := enableSampleAlphaToCoverage }
    { task := task, ctxDrawTargetRenderPasses := some published,
      dirtyBits := HdDirtyBits.clean }

/-- `Sync` after the task-parameter fetch: refresh render tags if their dirty
bit is set, run the version dispatch, then the common tail. -/
def _SyncMain (task : HdxDrawTargetTask) (delegate : HdSceneDelegate)
    (dirtyBits : HdDirtyBits) : SyncResult :=
  let task :=
    if dirtyBits.dirtyRenderTags then
      { task with renderTags := delegate.taskRenderTags }
    else task
  _SyncFinish (_SyncVersionStep task delegate) delegate dirtyBits

/-- `HdxDrawTargetTask::Sync`.  When the parameter dirty bit is set but
`_GetTaskParams` fails, `Sync` returns immediately: nothing is rebuilt or
published and the dirty bits stay as they were. -/
def HdxDrawTargetTask.Sync (task : HdxDrawTargetTask) (delegate : HdSceneDelegate)
    (dirtyBits : HdDirtyBits) : SyncResult :=
  if dirtyBits.dirtyParams then
    match delegate.taskParams with
    | none =>
      { task := task, ctxDrawTargetRenderPasses := none, dirtyBits := dirtyBits }
    | some params => _SyncMain (_SyncUpdateParams task params) delegate dirtyBits
  else _SyncMain task delegate dirtyBits

/-!
## Execute
-/

/-- One event issued by `HdxDrawTargetTask::Execute`, in program order. -/
inductive ExecuteEvent where
  | glPolygonOffsetFill (enabled : Bool)
  | glPolygonOffsetArgs (slopeFactor constantFactor : ℚ)
  | glSampleAlphaToCoverage (enabled : Bool)
  | glProgramPointSize (enabled : Bool)
  | glFrontFaceCW (clockwise : Bool)
  | bindPass (renderPassIdx : Nat)
  | drawPass (renderPassIdx : Nat)
  | unbindPass (renderPassIdx : Nat)
  | resolveTarget (target : GlfDrawTarget)
deriving DecidableEq, Inhabited

/-- The per-pass block of the `Execute` loop: bind the render-pass state,
execute the draw, unbind, and — when later draw targets depend on this one —
resolve its (non-null) draw target. -/
def _ExecutePassEvents (pass : HdxDrawTargetRenderPass) (renderPassIdx : Nat) :
    List ExecuteEvent :=
  [.bindPass renderPassIdx, .drawPass renderPassIdx, .unbindPass renderPassIdx] ++
    (if pass.hasDependentDrawTargets then
      match pass.drawTarget with
      | some target => [.resolveTarget target]
      | none => []
    else [])

/-- `HdxDrawTargetTask::Execute` as the sequence of issued operations. -/
def HdxDrawTargetTask.Execute (task : HdxDrawTargetTask) : List ExecuteEvent :=
  (if !task.depthBiasUseDefault then
    if task.depthBiasEnable then
      [.glPolygonOffsetFill true,
       .glPolygonOffsetArgs task.depthBiasSlopeFactor task.depthBiasConstantFactor]
    else [.glPolygonOffsetFill false]
  else []) ++
  [.glSampleAlphaToCoverage task.enableSampleAlphaToCoverage,
   .glProgramPointSize true,
   .glFrontFaceCW true] ++
  (List.range task.renderPasses.length).flatMap (fun renderPassIdx =>
    _ExecutePassEvents (task.renderPasses.getD renderPassIdx default) renderPassIdx) ++
  [.glSampleAlphaToCoverage false,
   .glProgramPointSize false,
   .glPolygonOffsetFill false,
   .glFrontFaceCW false]

/-- Events of the `Execute` loop body (as opposed to the global GL toggles). -/
def _IsPassEvent : ExecuteEvent → Bool
  | .bindPass _ => true
  | .drawPass _ => true
  | .unbindPass _ => true
  | .resolveTarget _ => true
  | _ => false

/-- Draw and resolve events only. -/
def _IsDrawOrResolve : ExecuteEvent → Bool
  | .drawPass _ => true
  | .resolveTarget _ => true
  | _ => false

/-!
## Proof-support definitions
-/

/-- The original indices carried by a list of sort entries. -/
def idxOf (l : List _DrawTargetEntry) : List Nat :=
  l.map _DrawTargetEntry.originalIndex

/-- The `x` draw target depends on the `y` one: the edge relation of the
dependency graph computed by the path-containment heuristic. -/
def DepEdge (dts : List HdStDrawTarget) (x y : Nat) : Prop :=
  _IsDependentOn dts x y = true

/-- The converse edge relation, as used for accessibility: `RevDep dts k j`
says that `j` depends on `k`, so `Acc (RevDep dts) j` states that every
dependency chain out of `j` is finite (`j` is not caught in or behind a
dependency cycle). -/
def RevDep (dts : List HdStDrawTarget) (k j : Nat) : Prop :=
  _IsDependentOn dts j k = true

/-- The loop-state invariant of the main sorting pass.  `done` is the
processed prefix of the C++ result vector and `todo` the rest of it. -/
structure _SortInv (dts : List HdStDrawTarget) (deps : Nat → Finset Nat)
    (done todo : List _DrawTargetEntry) : Prop where
  nodup : (idxOf (done ++ todo)).Nodup
  bounded : ∀ x ∈ idxOf (done ++ todo), x < dts.length
  depsEq : ∀ j < dts.length,
    deps j = (indexToDependencies dts j).filter (fun k => ¬ k ∈ idxOf done)
  closure : ∀ j < dts.length,
    (j ∈ idxOf (done ++ todo) ↔ ∀ k ∈ indexToDependencies dts j, k ∈ idxOf done)
  wf : ∀ e ∈ done ++ todo, e.drawTarget = dts.getD e.originalIndex default
  flagsTodo : ∀ e ∈ todo, e.hasDependentDrawTargets = false
  flagsDone : ∀ e ∈ done,
    e.hasDependentDrawTargets = !(indexToDependents dts e.originalIndex).isEmpty
  order : ∀ p (h : p < (idxOf (done ++ todo)).length),
    ∀ k ∈ indexToDependencies dts ((idxOf (done ++ todo)).get ⟨p, h⟩),
      k ∈ (idxOf (done ++ todo)).take p

/-!
## Concrete scenes used by witnesses and counterexamples
-/

def cexCamera : HdCamera :=
  { viewMatrix := .base 1, projectionMatrix := .base 2, windowPolicy := 0, clipPlanes := 0 }

/-- Draw target `/A`: renders the scene under `/Geo`, no draw target inside. -/
def cexA : HdStDrawTarget :=
  { id := ["A"], enabled := true, version := 3,
    collection := { rootPaths := [["Geo"]], excludePaths := [] },
    resolution := (100, 50),
    renderPassState := { camera := ["cam"], depthPriority := .HdDepthPriorityNearest,
                         aovBindings := 7 },
    glfDrawTarget := some { surfaceId := 10 } }

/-- Draw target `/B`: its collection contains `/A`, so `B` depends on `A`. -/
def cexB : HdStDrawTarget :=
  { id := ["B"], enabled := true, version := 4,
    collection := { rootPaths := [["A"]], excludePaths := [] },
    resolution := (64, 64),
    renderPassState := { camera := ["cam"], depthPriority := .HdDepthPriorityNearest,
                         aovBindings := 8 },
    glfDrawTarget := some { surfaceId := 11 } }

/-- A variant of `/A` whose collection contains `/B`: together with `cexB`
this forms a two-cycle `A ↔ B`. -/
def cexCycA : HdStDrawTarget :=
  { cexA with collection := { rootPaths := [["B"]], excludePaths := [] } }

/-- The acyclic two-target scene (`cexB` depends on `cexA`). -/
def cexScene : List HdStDrawTarget := [cexB, cexA]

def cexDelegate : HdSceneDelegate :=
  { taskParams := none, taskRenderTags := [], drawTargetSetVersion := 1,
    drawTargets := cexScene, cameras := [(["cam"], cexCamera)], lightingContext := none,
    taskSetAlphaToCoverage := false, debugDisableAlphaToCoverage := false }

/-- The task state after one full (rebuilding) `Sync` on `cexDelegate`. -/
def cexSyncedTask : HdxDrawTargetTask :=
  (HdxDrawTargetTask.Sync HdxDrawTargetTask.ctor cexDelegate HdDirtyBits.clean).task

/-- `cexA` after a content change: bumped version and a new GLF surface. -/
def cexABumped : HdStDrawTarget :=
  { cexA with version := 5, glfDrawTarget := some { surfaceId := 20 } }

/-- Delegate for the fresh-path scenario: same draw-target set (version 1),
but `/A`'s individual version has advanced. -/
def cexFreshDelegate : HdSceneDelegate :=
  { cexDelegate with drawTargets := [cexB, cexABumped] }

/-- Task state holding the entries built from `cexDelegate`, cached set
version 1, caching `/A` at version 3 — so the fresh path sees exactly one
stale entry. -/
def cexFreshTask : HdxDrawTargetTask := cexSyncedTask

/-- A draw target with a degenerate zero-height resolution. -/
def cexZeroH : HdStDrawTarget :=
  { cexA with id := ["Z"], resolution := (7, 0) }

def cexZeroDelegate : HdSceneDelegate :=
  { cexDelegate with drawTargets := [cexZeroH] }

/-- A render-pass info entry pointing at the zero-height target. -/
def cexZeroInfo : _RenderPassInfo :=
  { renderPassState := default, simpleLightingShader := default,
    target := ["Z"], version := 3 }

/-!
## Lemmas: the dependency graph
-/

theorem mem_indexToDependencies {dts : List HdStDrawTarget} {j k : Nat} :
    k ∈ indexToDependencies dts j ↔ k < dts.length ∧ _IsDependentOn dts j k = true := by
  simp [indexToDependencies]

theorem mem_indexToDependents {dts : List HdStDrawTarget} {j k : Nat} :
    j ∈ indexToDependents dts k ↔ j < dts.length ∧ _IsDependentOn dts j k = true := by
  simp [indexToDependents]

theorem nodup_indexToDependents (dts : List HdStDrawTarget) (k : Nat) :
    (indexToDependents dts k).Nodup :=
  (List.nodup_range _).filter _

/-- A slot past the end of the vector reads the default draw target, whose
(empty) collection contains no path: it depends on nothing. -/
theorem isDependentOn_eq_false_of_ge {dts : List HdStDrawTarget} {dependent : Nat}
    (h : dts.length ≤ dependent) (dependency : Nat) :
    _IsDependentOn dts dependent dependency = false := by
  have hd : dts.getD dependent default = default := List.getD_eq_default _ _ h
  rw [_IsDependentOn, hd]
  simp [_DoesCollectionContainPath, default]

/-!
## Lemmas: `_ScheduleDependents`
-/

theorem scheduleDependents_fst (dts : List HdStDrawTarget) (d : Nat) :
    ∀ (l : List Nat), l.Nodup → ∀ deps,
      (_ScheduleDependents dts d l deps).1 =
        fun j => if j ∈ l then (deps j).erase d else deps j := by
  intro l
  induction l with
  | nil =>
    intro _ deps
    funext j
    simp [_ScheduleDependents]
  | cons dep rest ih =>
    intro hnd deps
    obtain ⟨hdep, hrest⟩ := List.nodup_cons.mp hnd
    funext j
    show (_ScheduleDependents dts d rest
      (Function.update deps dep ((deps dep).erase d))).1 j = _
    rw [ih hrest]
    by_cases hj : j = dep
    · subst hj
      simp [hdep, Function.update_same]
    · simp only [Function.update_noteq hj, List.mem_cons, hj, false_or]

theorem scheduleDependents_snd (dts : List HdStDrawTarget) (d : Nat) :
    ∀ (l : List Nat), l.Nodup → ∀ deps,
      (_ScheduleDependents dts d l deps).2 =
        l.filterMap (fun j =>
          if (deps j).erase d = ∅ then
            some ⟨j, dts.getD j default, false⟩
          else none) := by
  intro l
  induction l with
  | nil =>
    intro _ deps
    simp [_ScheduleDependents]
  | cons dep rest ih =>
    intro hnd deps
    obtain ⟨hdep, hrest⟩ := List.nodup_cons.mp hnd
    show (if Function.update deps dep ((deps dep).erase d) dep = ∅ then
        [(⟨dep, dts.getD dep default, false⟩ : _DrawTargetEntry)] else []) ++
      (_ScheduleDependents dts d rest
        (Function.update deps dep ((deps dep).erase d))).2 = _
    rw [ih hrest]
    rw [List.filterMap_cons]
    have hupd : ∀ j ∈ rest,
        (Function.update deps dep ((deps dep).erase d) j).erase d = (deps j).erase d := by
      intro j hj
      have : j ≠ dep := fun h => hdep (h ▸ hj)
      rw [Function.update_noteq this]
    rw [List.filterMap_congr (fun j hj => by rw [hupd j hj])]
    by_cases hempty : (deps dep).erase d = ∅
    · simp [Function.update_same, hempty]
    · simp [Function.update_same, hempty]

/-!
## Lemmas: the sorting invariant
-/

theorem entry_of_mem_filterMap {l : List Nat} {p : Nat → Prop} [DecidablePred p]
    {f : Nat → HdStDrawTarget} {e : _DrawTargetEntry}
    (h : e ∈ l.filterMap (fun j =>
      if p j then some (⟨j, f j, false⟩ : _DrawTargetEntry) else none)) :
    e.originalIndex ∈ l ∧ p e.originalIndex ∧ e.drawTarget = f e.originalIndex ∧
      e.hasDependentDrawTargets = false := by
  obtain ⟨a, ha, hsome⟩ := List.mem_filterMap.mp h
  by_cases hp : p a
  · simp only [hp, if_pos] at hsome
    obtain rfl := Option.some.inj hsome
    exact ⟨ha, hp, rfl, rfl⟩
  · simp [hp] at hsome

theorem idxOf_filterMap {l : List Nat} {p : Nat → Prop} [DecidablePred p]
    {f : Nat → HdStDrawTarget} :
    idxOf (l.filterMap (fun j =>
      if p j then some (⟨j, f j, false⟩ : _DrawTargetEntry) else none)) =
      l.filter (fun j => decide (p j)) := by
  induction l with
  | nil => simp [idxOf]
  | cons a rest ih =>
    by_cases hp : p a
    · simp [List.filterMap_cons, List.filter_cons, hp, idxOf] at ih ⊢
      exact ih
    · simp [List.filterMap_cons, List.filter_cons, hp, idxOf] at ih ⊢
      exact ih

theorem order_append (dts : List HdStDrawTarget) (il s : List Nat)
    (h1 : ∀ p (h : p < il.length),
      ∀ k ∈ indexToDependencies dts (il.get ⟨p, h⟩), k ∈ il.take p)
    (h2 : ∀ x ∈ s, ∀ k ∈ indexToDependencies dts x, k ∈ il) :
    ∀ p (h : p < (il ++ s).length),
      ∀ k ∈ indexToDependencies dts ((il ++ s).get ⟨p, h⟩), k ∈ (il ++ s).take p := by
  intro p h k hk
  by_cases hp : p < il.length
  · have hget : (il ++ s).get ⟨p, h⟩ = il.get ⟨p, hp⟩ := by
      simp [List.getElem_append_left hp]
    rw [hget] at hk
    have hmem := h1 p hp k hk
    have htake : (il ++ s).take p = il.take p := by
      rw [List.take_append_eq_append_take]
      have : p - il.length = 0 := by omega
      simp [this]
    rw [htake]
    exact hmem
  · push_neg at hp
    have hget : (il ++ s).get ⟨p, h⟩ ∈ s := by
      have : (il ++ s).get ⟨p, h⟩ = s.get ⟨p - il.length, by
        simp at h; omega⟩ := by
        simp [List.getElem_append_right hp]
      rw [this]
      exact List.get_mem _ _ _
    have hmem := h2 _ hget k hk
    have hil : il.take p = il := List.take_of_length_le hp
    rw [List.take_append_eq_append_take, hil]
    exact List.mem_append_left _ hmem

theorem sortInv_step (dts : List HdStDrawTarget) (deps : Nat → Finset Nat)
    (done : List _DrawTargetEntry) (entry : _DrawTargetEntry)
    (rest : List _DrawTargetEntry)
    (inv : _SortInv dts deps done (entry :: rest)) :
    _SortInv dts
      (_ScheduleDependents dts entry.originalIndex
        (indexToDependents dts entry.originalIndex) deps).1
      (done ++ [{ entry with hasDependentDrawTargets :=
        !(indexToDependents dts entry.originalIndex).isEmpty }])
      (rest ++ (_ScheduleDependents dts entry.originalIndex
        (indexToDependents dts entry.originalIndex) deps).2) := by
  have hLnodup : (indexToDependents dts entry.originalIndex).Nodup :=
    nodup_indexToDependents dts entry.originalIndex
  have hfst := scheduleDependents_fst dts entry.originalIndex
    (indexToDependents dts entry.originalIndex) hLnodup deps
  have hsnd := scheduleDependents_snd dts entry.originalIndex
    (indexToDependents dts entry.originalIndex) hLnodup deps
  have hilA : idxOf (done ++ entry :: rest) =
      idxOf done ++ entry.originalIndex :: idxOf rest := by
    simp [idxOf]
  have hdmemA : entry.originalIndex ∈ idxOf (done ++ entry :: rest) := by
    rw [hilA]
    exact List.mem_append_right _ (List.mem_cons_self _ _)
  have hdlt : entry.originalIndex < dts.length := inv.bounded _ hdmemA
  have hdnotdone : entry.originalIndex ∉ idxOf done := by
    have hnd := inv.nodup
    rw [hilA] at hnd
    have hdisj := List.disjoint_of_nodup_append hnd
    intro hmem
    exact hdisj hmem (List.mem_cons_self _ _)
  have hLfresh : ∀ j ∈ indexToDependents dts entry.originalIndex,
      j ∉ idxOf (done ++ entry :: rest) := by
    intro j hjL hjA
    have hj := mem_indexToDependents.mp hjL
    have hdmemdep : entry.originalIndex ∈ indexToDependencies dts j :=
      mem_indexToDependencies.mpr ⟨hdlt, hj.2⟩
    exact hdnotdone ((inv.closure j hj.1).mp hjA _ hdmemdep)
  have hnewIdx : idxOf (_ScheduleDependents dts entry.originalIndex
      (indexToDependents dts entry.originalIndex) deps).2 =
      (indexToDependents dts entry.originalIndex).filter
        (fun j => decide ((deps j).erase entry.originalIndex = ∅)) := by
    rw [hsnd]
    exact idxOf_filterMap
  have hkey : ∀ j ∈ (indexToDependents dts entry.originalIndex).filter
      (fun j => decide ((deps j).erase entry.originalIndex = ∅)),
      ∀ k ∈ indexToDependencies dts j, k ∈ idxOf done ++ [entry.originalIndex] := by
    intro j hj k hk
    have hjL := List.mem_of_mem_filter hj
    have hcond : (deps j).erase entry.originalIndex = ∅ := by
      have := List.of_mem_filter hj
      simpa using this
    have hjlt : j < dts.length := (mem_indexToDependents.mp hjL).1
    by_cases hkdone : k ∈ idxOf done
    · exact List.mem_append_left _ hkdone
    · have hkdeps : k ∈ deps j := by
        rw [inv.depsEq j hjlt]
        exact Finset.mem_filter.mpr ⟨hk, hkdone⟩
      have hkd : k = entry.originalIndex := by
        by_contra hne
        have hmem : k ∈ (deps j).erase entry.originalIndex :=
          Finset.mem_erase.mpr ⟨hne, hkdeps⟩
        rw [hcond] at hmem
        exact absurd hmem (Finset.not_mem_empty k)
      subst hkd
      exact List.mem_append_right _ (List.mem_singleton.mpr rfl)
  have hilA' : idxOf ((done ++ [{ entry with hasDependentDrawTargets :=
        !(indexToDependents dts entry.originalIndex).isEmpty }]) ++
      (rest ++ (_ScheduleDependents dts entry.originalIndex
        (indexToDependents dts entry.originalIndex) deps).2)) =
      (idxOf done ++ entry.originalIndex :: idxOf rest) ++
        (indexToDependents dts entry.originalIndex).filter
          (fun j => decide ((deps j).erase entry.originalIndex = ∅)) := by
    unfold idxOf at hnewIdx ⊢
    simp [List.map_append, hnewIdx]
  have hdone' : idxOf (done ++ [{ entry with hasDependentDrawTargets :=
      !(indexToDependents dts entry.originalIndex).isEmpty }]) =
      idxOf done ++ [entry.originalIndex] := by
    simp [idxOf]
  refine ⟨?_, ?_, ?_, ?_, ?_, ?_, ?_, ?_⟩
  · -- nodup
    rw [hilA']
    rw [List.nodup_append]
    refine ⟨?_, ?_, ?_⟩
    · have hnd := inv.nodup
      rw [hilA] at hnd
      exact hnd
    · exact hLnodup.filter _
    · intro x hx1 hx2
      exact hLfresh x (List.mem_of_mem_filter hx2) (by rw [hilA]; exact hx1)
  · -- bounded
    rw [hilA']
    intro x hx
    rcases List.mem_append.mp hx with h | h
    · exact inv.bounded x (by rw [hilA]; exact h)
    · exact (mem_indexToDependents.mp (List.mem_of_mem_filter h)).1
  · -- depsEq
    intro j hj
    rw [congrFun hfst j, hdone']
    by_cases hjL : j ∈ indexToDependents dts entry.originalIndex
    · rw [if_pos hjL, inv.depsEq j hj]
      ext k
      simp only [Finset.mem_erase, Finset.mem_filter, List.mem_append,
        List.mem_singleton]
      tauto
    · rw [if_neg hjL, inv.depsEq j hj]
      have hdnot : entry.originalIndex ∉ indexToDependencies dts j := by
        intro hmem
        exact hjL (mem_indexToDependents.mpr ⟨hj, (mem_indexToDependencies.mp hmem).2⟩)
      ext k
      simp only [Finset.mem_filter, List.mem_append, List.mem_singleton]
      constructor
      · rintro ⟨hk1, hk2⟩
        refine ⟨hk1, ?_⟩
        rintro (h | rfl)
        · exact hk2 h
        · exact hdnot hk1
      · rintro ⟨hk1, hk2⟩
        exact ⟨hk1, fun h => hk2 (Or.inl h)⟩
  · -- closure
    intro j hj
    rw [hilA', hdone']
    constructor
    · intro hmem k hk
      rcases List.mem_append.mp hmem with h | h
      · exact List.mem_append_left _ ((inv.closure j hj).mp (by rw [hilA]; exact h) k hk)
      · exact hkey j h k hk
    · intro hall
      by_cases hd : entry.originalIndex ∈ indexToDependencies dts j
      · refine List.mem_append_right _ ?_
        have hjL : j ∈ indexToDependents dts entry.originalIndex :=
          mem_indexToDependents.mpr ⟨hj, (mem_indexToDependencies.mp hd).2⟩
        refine List.mem_filter.mpr ⟨hjL, ?_⟩
        simp only [decide_eq_true_eq]
        apply Finset.eq_empty_iff_forall_not_mem.mpr
        intro k hk
        obtain ⟨hkne, hkdeps⟩ := Finset.mem_erase.mp hk
        rw [inv.depsEq j hj] at hkdeps
        obtain ⟨hk0, hknotdone⟩ := Finset.mem_filter.mp hkdeps
        rcases List.mem_append.mp (hall k hk0) with h | h
        · exact hknotdone h
        · exact hkne (List.mem_singleton.mp h)
      · refine List.mem_append_left _ ?_
        rw [← hilA]
        apply (inv.closure j hj).mpr
        intro k hk
        rcases List.mem_append.mp (hall k hk) with h | h
        · exact h
        · exfalso
          rw [List.mem_singleton.mp h] at hk
          exact hd hk
  · -- wf
    intro e he
    rcases List.mem_append.mp he with h | h
    · rcases List.mem_append.mp h with h2 | h2
      · exact inv.wf e (List.mem_append_left _ h2)
      · have he' := List.mem_singleton.mp h2
        subst he'
        simpa using inv.wf entry (List.mem_append_right _ (List.mem_cons_self _ _))
    · rcases List.mem_append.mp h with h2 | h2
      · exact inv.wf e (List.mem_append_right _ (List.mem_cons_of_mem _ h2))
      · rw [hsnd] at h2
        exact (entry_of_mem_filterMap h2).2.2.1
  · -- flagsTodo
    intro e he
    rcases List.mem_append.mp he with h | h
    · exact inv.flagsTodo e (List.mem_cons_of_mem _ h)
    · rw [hsnd] at h
      exact (entry_of_mem_filterMap h).2.2.2
  · -- flagsDone
    intro e he
    rcases List.mem_append.mp he with h | h
    · exact inv.flagsDone e h
    · have he' := List.mem_singleton.mp h
      subst he'
      rfl
  · -- order
    rw [hilA']
    apply order_append
    · have hordold := inv.order
      rw [hilA] at hordold
      exact hordold
    · intro x hx k hk
      rcases List.mem_append.mp (hkey x hx k hk) with h | h
      · exact List.mem_append_left _ h
      · rw [List.mem_singleton.mp h]
        exact List.mem_append_right _ (List.mem_cons_self _ _)

/-- A duplicate-free list of naturals below `n` has length at most `n`. -/
theorem length_le_of_nodup_lt {l : List Nat} {n : Nat} (hnd : l.Nodup)
    (hlt : ∀ x ∈ l, x < n) : l.length ≤ n := by
  have hcard : l.toFinset.card = l.length := List.toFinset_card_of_nodup hnd
  have hsub : l.toFinset ⊆ Finset.range n := by
    intro x hx
    exact Finset.mem_range.mpr (hlt x (List.mem_toFinset.mp hx))
  have := Finset.card_le_card hsub
  rw [hcard, Finset.card_range] at this
  exact this

/-- Running the main pass with enough fuel preserves the invariant and
drains `todo`. -/
theorem sortLoop_inv (dts : List HdStDrawTarget) :
    ∀ (fuel : Nat) (deps : Nat → Finset Nat) (done todo : List _DrawTargetEntry),
      _SortInv dts deps done todo →
      dts.length < done.length + fuel →
      _SortInv dts (_SortLoop dts fuel deps done todo).1
        (_SortLoop dts fuel deps done todo).2 [] := by
  intro fuel
  induction fuel with
  | zero =>
    intro deps done todo inv hfuel
    exfalso
    have hlen : (idxOf (done ++ todo)).length ≤ dts.length :=
      length_le_of_nodup_lt inv.nodup inv.bounded
    have : done.length ≤ (idxOf (done ++ todo)).length := by
      simp [idxOf]
    omega
  | succ fuel ih =>
    intro deps done todo inv hfuel
    match todo with
    | [] =>
      show _SortInv dts (deps, done).1 (deps, done).2 []
      exact inv
    | entry :: rest =>
      have hstep := sortInv_step dts deps done entry rest inv
      have := ih _ _ _ hstep (by simp; omega)
      simpa [_SortLoop] using this

/-- The state after `_SortRun` satisfies the invariant with nothing left
to process. -/
theorem sortRun_inv (dts : List HdStDrawTarget) :
    _SortInv dts (_SortRun dts).1 (_SortRun dts).2 [] := by
  have hinit : _SortInv dts (indexToDependencies dts) [] (_InitialEntries dts) := by
    have hidx : idxOf (_InitialEntries dts) =
        (List.range dts.length).filter
          (fun j => decide (indexToDependencies dts j = ∅)) := by
      unfold _InitialEntries
      exact idxOf_filterMap
    refine ⟨?_, ?_, ?_, ?_, ?_, ?_, ?_, ?_⟩
    · rw [List.nil_append, hidx]
      exact (List.nodup_range _).filter _
    · rw [List.nil_append, hidx]
      intro x hx
      exact List.mem_range.mp (List.mem_of_mem_filter hx)
    · intro j hj
      ext k
      simp [idxOf]
    · intro j hj
      rw [List.nil_append, hidx]
      constructor
      · intro hmem k hk
        exfalso
        have hempty := List.of_mem_filter hmem
        simp only [decide_eq_true_eq] at hempty
        rw [hempty] at hk
        exact Finset.not_mem_empty k hk
      · intro hall
        refine List.mem_filter.mpr ⟨List.mem_range.mpr hj, ?_⟩
        simp only [decide_eq_true_eq]
        apply Finset.eq_empty_iff_forall_not_mem.mpr
        intro k hk
        exact absurd (hall k hk) (List.not_mem_nil k)
    · intro e he
      rw [List.nil_append] at he
      unfold _InitialEntries at he
      exact (entry_of_mem_filterMap he).2.2.1
    · intro e he
      unfold _InitialEntries at he
      exact (entry_of_mem_filterMap he).2.2.2
    · intro e he
      cases he
    · intro p h k hk
      exfalso
      have hidx2 : idxOf ([] ++ _InitialEntries dts) =
          (List.range dts.length).filter
            (fun j => decide (indexToDependencies dts j = ∅)) := hidx
      have hget : (idxOf ([] ++ _InitialEntries dts)).get ⟨p, h⟩ ∈
          idxOf ([] ++ _InitialEntries dts) := List.get_mem _ _ _
      have hget2 : (idxOf ([] ++ _InitialEntries dts)).get ⟨p, h⟩ ∈
          (List.range dts.length).filter
            (fun j => decide (indexToDependencies dts j = ∅)) := by
        rw [← hidx2]
        exact hget
      have hempty := List.of_mem_filter hget2
      simp only [decide_eq_true_eq] at hempty
      rw [hempty] at hk
      exact Finset.not_mem_empty k hk
  exact sortLoop_inv dts (dts.length + 1) _ [] _ hinit (by simp)

theorem sortRun_nodup (dts : List HdStDrawTarget) : (idxOf (_SortRun dts).2).Nodup := by
  have := (sortRun_inv dts).nodup
  simpa only [List.append_nil] using this

theorem sortRun_bounded (dts : List HdStDrawTarget) :
    ∀ x ∈ idxOf (_SortRun dts).2, x < dts.length := by
  have := (sortRun_inv dts).bounded
  simpa only [List.append_nil] using this

theorem sortRun_depsEq (dts : List HdStDrawTarget) :
    ∀ j < dts.length, (_SortRun dts).1 j =
      (indexToDependencies dts j).filter (fun k => ¬ k ∈ idxOf (_SortRun dts).2) :=
  (sortRun_inv dts).depsEq

theorem sortRun_closure (dts : List HdStDrawTarget) :
    ∀ j < dts.length, (j ∈ idxOf (_SortRun dts).2 ↔
      ∀ k ∈ indexToDependencies dts j, k ∈ idxOf (_SortRun dts).2) := by
  have := (sortRun_inv dts).closure
  simpa only [List.append_nil] using this

theorem sortRun_wf (dts : List HdStDrawTarget) :
    ∀ e ∈ (_SortRun dts).2, e.drawTarget = dts.getD e.originalIndex default := by
  have := (sortRun_inv dts).wf
  simpa only [List.append_nil] using this

theorem sortRun_flags (dts : List HdStDrawTarget) :
    ∀ e ∈ (_SortRun dts).2,
      e.hasDependentDrawTargets = !(indexToDependents dts e.originalIndex).isEmpty :=
  (sortRun_inv dts).flagsDone

theorem sortRun_order (dts : List HdStDrawTarget) :
    ∀ p (h : p < (idxOf (_SortRun dts).2).length),
      ∀ k ∈ indexToDependencies dts ((idxOf (_SortRun dts).2).get ⟨p, h⟩),
        k ∈ (idxOf (_SortRun dts).2).take p := by
  intro p h k hk
  have heq : idxOf ((_SortRun dts).2 ++ []) = idxOf (_SortRun dts).2 := by
    rw [List.append_nil]
  have h' : p < (idxOf ((_SortRun dts).2 ++ [])).length := by
    rw [heq]
    exact h
  have hget : (idxOf ((_SortRun dts).2 ++ [])).get ⟨p, h'⟩ =
      (idxOf (_SortRun dts).2).get ⟨p, h⟩ :=
    List.get_of_eq heq _
  have hres := (sortRun_inv dts).order p h' k (by rw [hget]; exact hk)
  rw [heq] at hres
  exact hres

/-- The cycle-fallback appendix of `_SortDrawTargets`. -/
def _CycleAppendix (dts : List HdStDrawTarget) : List _DrawTargetEntry :=
  (List.range dts.length).filterMap (fun i =>
    if (_SortRun dts).1 i ≠ ∅ then some ⟨i, dts.getD i default, false⟩ else none)

/-- A draw target is left over for the appendix exactly when the main pass
did not schedule it. -/
theorem cycleAppendix_idx (dts : List HdStDrawTarget) :
    idxOf (_CycleAppendix dts) =
      (List.range dts.length).filter (fun i => decide (¬ i ∈ idxOf (_SortRun dts).2)) := by
  unfold _CycleAppendix
  rw [idxOf_filterMap]
  apply List.filter_congr
  intro i hi
  have hilt : i < dts.length := List.mem_range.mp hi
  simp only [decide_eq_decide]
  rw [sortRun_depsEq dts i hilt]
  constructor
  · intro hne hmem
    apply hne
    apply Finset.eq_empty_iff_forall_not_mem.mpr
    intro k hk
    obtain ⟨hk0, hknot⟩ := Finset.mem_filter.mp hk
    exact hknot ((sortRun_closure dts i hilt).mp hmem k hk0)
  · intro hnotmem hempty
    apply hnotmem
    apply (sortRun_closure dts i hilt).mpr
    intro k hk
    by_contra hknot
    have : k ∈ (indexToDependencies dts i).filter
        (fun k => ¬ k ∈ idxOf (_SortRun dts).2) :=
      Finset.mem_filter.mpr ⟨hk, hknot⟩
    rw [hempty] at this
    exact Finset.not_mem_empty k this

/-- `_SortDrawTargets` always equals main pass plus appendix: when the main
pass scheduled everything the appendix is empty, and on the empty input both
are empty. -/
theorem sortDrawTargets_eq (dts : List HdStDrawTarget) :
    _SortDrawTargets dts = (_SortRun dts).2 ++ _CycleAppendix dts := by
  by_cases hempty : dts.isEmpty
  · have : dts = [] := List.isEmpty_iff.mp hempty
    subst this
    rfl
  · unfold _SortDrawTargets
    rw [if_neg hempty]
    by_cases hlen : (_SortRun dts).2.length < dts.length
    · rw [if_pos hlen]
      rfl
    · rw [if_neg hlen]
      have happ : _CycleAppendix dts = [] := by
        apply List.filterMap_eq_nil_iff.mpr
        intro i hi
        have hilt : i < dts.length := List.mem_range.mp hi
        rw [if_neg]
        simp only [ne_eq, not_not]
        -- every index is scheduled: the main result has full length
        have hle : (idxOf (_SortRun dts).2).length ≤ dts.length :=
          length_le_of_nodup_lt (sortRun_nodup dts) (sortRun_bounded dts)
        have hlen' : (idxOf (_SortRun dts).2).length = dts.length := by
          have : (idxOf (_SortRun dts).2).length = (_SortRun dts).2.length := by
            simp [idxOf]
          omega
        have hcover : i ∈ idxOf (_SortRun dts).2 := by
          have hsub : (idxOf (_SortRun dts).2).toFinset ⊆ Finset.range dts.length := by
            intro x hx
            exact Finset.mem_range.mpr
              (sortRun_bounded dts x (List.mem_toFinset.mp hx))
          have hcard : (idxOf (_SortRun dts).2).toFinset.card = dts.length := by
            rw [List.toFinset_card_of_nodup (sortRun_nodup dts)]
            exact hlen'
          have : (idxOf (_SortRun dts).2).toFinset = Finset.range dts.length :=
            Finset.eq_of_subset_of_card_le hsub (by rw [hcard, Finset.card_range])
          have : i ∈ (idxOf (_SortRun dts).2).toFinset := by
            rw [this]
            exact Finset.mem_range.mpr hilt
          exact List.mem_toFinset.mp this
        rw [sortRun_depsEq dts i hilt]
        apply Finset.eq_empty_iff_forall_not_mem.mpr
        intro k hk
        obtain ⟨hk0, hknot⟩ := Finset.mem_filter.mp hk
        exact hknot ((sortRun_closure dts i hilt).mp hcover k hk0)
      rw [happ, List.append_nil]

/-- The indices of the full sort result are exactly `0, ..., n-1`, each once. -/
theorem sortDrawTargets_perm (dts : List HdStDrawTarget) :
    (idxOf (_SortDrawTargets dts)).Perm (List.range dts.length) := by
  rw [sortDrawTargets_eq]
  have hsplit : idxOf ((_SortRun dts).2 ++ _CycleAppendix dts) =
      idxOf (_SortRun dts).2 ++ idxOf (_CycleAppendix dts) := by
    simp [idxOf]
  rw [hsplit, cycleAppendix_idx]
  apply List.perm_of_nodup_nodup_toFinset_eq
  · rw [List.nodup_append]
    refine ⟨sortRun_nodup dts, (List.nodup_range _).filter _, ?_⟩
    intro x hx1 hx2
    have := List.of_mem_filter hx2
    simp only [decide_eq_true_eq] at this
    exact this hx1
  · exact List.nodup_range _
  · ext x
    simp only [List.toFinset_append, Finset.mem_union, List.mem_toFinset,
      List.mem_filter, List.mem_range, decide_eq_true_eq]
    constructor
    · rintro (h | ⟨h, _⟩)
      · exact sortRun_bounded dts x h
      · exact h
    · intro hx
      by_cases hmem : x ∈ idxOf (_SortRun dts).2
      · exact Or.inl hmem
      · exact Or.inr ⟨hx, hmem⟩

/-- Indices past the end of the input are trivially accessible: the default
draw target depends on nothing. -/
theorem acc_revDep_of_ge (dts : List HdStDrawTarget) {j : Nat}
    (h : dts.length ≤ j) : Acc (RevDep dts) j := by
  constructor
  intro k hk
  exfalso
  have := isDependentOn_eq_false_of_ge h k
  rw [RevDep, this] at hk
  cases hk

/-- Every index scheduled by the main pass is accessible: its dependencies
appear earlier in the pass, recursively. -/
theorem acc_of_mem_sortRun (dts : List HdStDrawTarget) :
    ∀ p (h : p < (idxOf (_SortRun dts).2).length),
      Acc (RevDep dts) ((idxOf (_SortRun dts).2).get ⟨p, h⟩) := by
  intro p
  induction p using Nat.strong_induction_on with
  | _ p ih =>
    intro h
    constructor
    intro k hk
    by_cases hklt : k < dts.length
    · have hkdep : k ∈ indexToDependencies dts ((idxOf (_SortRun dts).2).get ⟨p, h⟩) :=
        mem_indexToDependencies.mpr ⟨hklt, hk⟩
      have hktake := sortRun_order dts p h k hkdep
      obtain ⟨q, hget⟩ := List.mem_iff_get.mp hktake
      have hqlt : q.1 < p := by
        have := q.2
        simp only [List.length_take, lt_min_iff] at this
        exact this.1
      have hqlen : q.1 < (idxOf (_SortRun dts).2).length := by
        have := q.2
        simp only [List.length_take, lt_min_iff] at this
        exact this.2
      have hgeteq : ((idxOf (_SortRun dts).2).take p).get q =
          (idxOf (_SortRun dts).2).get ⟨q.1, hqlen⟩ := by
        simp [List.getElem_take]
      rw [hgeteq] at hget
      rw [← hget]
      exact ih q.1 hqlt hqlen
    · exact acc_revDep_of_ge dts (Nat.le_of_not_lt hklt)

/-- Accessible indices are scheduled by the main pass. -/
theorem mem_sortRun_of_acc (dts : List HdStDrawTarget) :
    ∀ j, Acc (RevDep dts) j → j < dts.length → j ∈ idxOf (_SortRun dts).2 := by
  intro j hacc
  induction hacc with
  | intro j hj ih =>
    intro hjlt
    apply (sortRun_closure dts j hjlt).mpr
    intro k hk
    obtain ⟨hklt, hedge⟩ := mem_indexToDependencies.mp hk
    exact ih k hedge hklt

/-- In an acyclic dependency graph every index is accessible. -/
theorem acc_of_acyclic (dts : List HdStDrawTarget)
    (hacyc : ∀ i, ¬ Relation.TransGen (DepEdge dts) i i) :
    ∀ j, Acc (RevDep dts) j := by
  by_contra hnot
  push_neg at hnot
  obtain ⟨j0, hj0⟩ := hnot
  have hstep : ∀ j, ¬ Acc (RevDep dts) j →
      ∃ k, ¬ Acc (RevDep dts) k ∧ DepEdge dts j k := by
    intro j hj
    by_contra hcon
    push_neg at hcon
    apply hj
    constructor
    intro k hk
    by_contra hnk
    exact hcon k hnk hk
  have hbad_lt : ∀ j, ¬ Acc (RevDep dts) j → j < dts.length := by
    intro j hj
    by_contra hge
    push_neg at hge
    exact hj (acc_revDep_of_ge dts hge)
  have hF : ∀ b : {j : Nat // ¬ Acc (RevDep dts) j},
      ∃ k : Nat, ¬ Acc (RevDep dts) k ∧ DepEdge dts b.1 k :=
    fun b => hstep b.1 b.2
  let F : {j : Nat // ¬ Acc (RevDep dts) j} → {j : Nat // ¬ Acc (RevDep dts) j} :=
    fun b => ⟨(hF b).choose, (hF b).choose_spec.1⟩
  have hFedge : ∀ b, DepEdge dts b.1 (F b).1 := fun b => (hF b).choose_spec.2
  let seq : Nat → {j : Nat // ¬ Acc (RevDep dts) j} := fun m => F^[m] ⟨j0, hj0⟩
  have hseqsucc : ∀ m, seq (m + 1) = F (seq m) := by
    intro m
    simp only [seq, Function.iterate_succ_apply']
  have hchain : ∀ m, DepEdge dts (seq m).1 (seq (m + 1)).1 := by
    intro m
    rw [hseqsucc m]
    exact hFedge (seq m)
  have htrans : ∀ a b, a < b → Relation.TransGen (DepEdge dts) (seq a).1 (seq b).1 := by
    intro a b hab
    induction b with
    | zero => omega
    | succ b ih =>
      rcases Nat.lt_succ_iff_lt_or_eq.mp hab with h | h
      · exact Relation.TransGen.tail (ih h) (hchain b)
      · subst h
        exact Relation.TransGen.single (hchain a)
  have hmaps : ∀ m ∈ Finset.range (dts.length + 1),
      (seq m).1 ∈ Finset.range dts.length := by
    intro m _
    exact Finset.mem_range.mpr (hbad_lt (seq m).1 (seq m).2)
  have hcard : (Finset.range dts.length).card < (Finset.range (dts.length + 1)).card := by
    simp
  obtain ⟨a, ha, b, hb, hne, heq⟩ :=
    Finset.exists_ne_map_eq_of_card_lt_of_maps_to hcard hmaps
  rcases Nat.lt_or_ge a b with h | h
  · have hcyc := htrans a b h
    rw [← heq] at hcyc
    exact hacyc _ hcyc
  · have h' : b < a := by omega
    have hcyc := htrans b a h'
    rw [heq] at hcyc
    exact hacyc _ hcyc

/-- On an acyclic graph the main pass schedules every draw target, so the
cycle fallback contributes nothing. -/
theorem sortDrawTargets_of_acyclic (dts : List HdStDrawTarget)
    (hacyc : ∀ i, ¬ Relation.TransGen (DepEdge dts) i i) :
    _SortDrawTargets dts = (_SortRun dts).2 := by
  rw [sortDrawTargets_eq]
  have happ : idxOf (_CycleAppendix dts) = [] := by
    rw [cycleAppendix_idx]
    apply List.filter_eq_nil_iff.mpr
    intro i hi
    simp only [decide_eq_true_eq, not_not]
    exact mem_sortRun_of_acc dts i
      (acc_of_acyclic dts hacyc i) (List.mem_range.mp hi)
  have : _CycleAppendix dts = [] := by
    have := happ
    unfold idxOf at this
    exact List.map_eq_nil_iff.mp this
  rw [this, List.append_nil]

/-- Topological validity of the main pass: a dependency of the entry at
position `p` can only sit at an earlier position. -/
theorem sortRun_topological (dts : List HdStDrawTarget) (p q : Nat)
    (hp : p < (_SortRun dts).2.length) (hq : q < (_SortRun dts).2.length)
    (hdep : _IsDependentOn dts (((_SortRun dts).2.get ⟨p, hp⟩).originalIndex)
      (((_SortRun dts).2.get ⟨q, hq⟩).originalIndex) = true) :
    q < p := by
  have hleni : (idxOf (_SortRun dts).2).length = (_SortRun dts).2.length := by
    simp [idxOf]
  have hp' : p < (idxOf (_SortRun dts).2).length := by rw [hleni]; exact hp
  have hq' : q < (idxOf (_SortRun dts).2).length := by rw [hleni]; exact hq
  have hgetp : (idxOf (_SortRun dts).2).get ⟨p, hp'⟩ =
      ((_SortRun dts).2.get ⟨p, hp⟩).originalIndex := by
    simp [idxOf]
  have hgetq : (idxOf (_SortRun dts).2).get ⟨q, hq'⟩ =
      ((_SortRun dts).2.get ⟨q, hq⟩).originalIndex := by
    simp [idxOf]
  have hylt : ((_SortRun dts).2.get ⟨q, hq⟩).originalIndex < dts.length := by
    apply sortRun_bounded
    rw [← hgetq]
    exact List.get_mem _ _ _
  have hydep : ((_SortRun dts).2.get ⟨q, hq⟩).originalIndex ∈
      indexToDependencies dts ((idxOf (_SortRun dts).2).get ⟨p, hp'⟩) := by
    rw [hgetp]
    exact mem_indexToDependencies.mpr ⟨hylt, hdep⟩
  have htake := sortRun_order dts p hp' _ hydep
  obtain ⟨r, hget⟩ := List.mem_iff_get.mp htake
  have hrp : r.1 < p := by
    have := r.2
    simp only [List.length_take, lt_min_iff] at this
    exact this.1
  have hrlen : r.1 < (idxOf (_SortRun dts).2).length := by
    have := r.2
    simp only [List.length_take, lt_min_iff] at this
    exact this.2
  have hgr : (idxOf (_SortRun dts).2).get ⟨r.1, hrlen⟩ =
      ((_SortRun dts).2.get ⟨q, hq⟩).originalIndex := by
    rw [← hget]
    simp [List.getElem_take]
  have hfin : (⟨r.1, hrlen⟩ : Fin (idxOf (_SortRun dts).2).length) = ⟨q, hq'⟩ :=
    (List.Nodup.get_inj_iff (sortRun_nodup dts)).mp (hgr.trans hgetq.symm)
  have : r.1 = q := congrArg Fin.val hfin
  omega

theorem cycleAppendix_flags (dts : List HdStDrawTarget) :
    ∀ e ∈ _CycleAppendix dts, e.hasDependentDrawTargets = false := by
  intro e he
  unfold _CycleAppendix at he
  exact (entry_of_mem_filterMap he).2.2.2

theorem cycleAppendix_sorted (dts : List HdStDrawTarget) :
    (idxOf (_CycleAppendix dts)).Pairwise (· < ·) := by
  rw [cycleAppendix_idx]
  exact (List.pairwise_lt_range _).filter _

theorem cycleAppendix_not_acc (dts : List HdStDrawTarget) :
    ∀ e ∈ _CycleAppendix dts, ¬ Acc (RevDep dts) e.originalIndex := by
  intro e he hacc
  have hidx : e.originalIndex ∈ idxOf (_CycleAppendix dts) := by
    unfold idxOf
    exact List.mem_map_of_mem _ he
  rw [cycleAppendix_idx] at hidx
  have hnot := List.of_mem_filter hidx
  simp only [decide_eq_true_eq] at hnot
  have hlt : e.originalIndex < dts.length :=
    List.mem_range.mp (List.mem_of_mem_filter hidx)
  exact hnot (mem_sortRun_of_acc dts e.originalIndex hacc hlt)

theorem sortRun_acc_get (dts : List HdStDrawTarget) :
    ∀ p (h : p < (_SortRun dts).2.length),
      Acc (RevDep dts) (((_SortRun dts).2.get ⟨p, h⟩).originalIndex) := by
  intro p h
  have hleni : (idxOf (_SortRun dts).2).length = (_SortRun dts).2.length := by
    simp [idxOf]
  have hp' : p < (idxOf (_SortRun dts).2).length := by rw [hleni]; exact h
  have hgetp : (idxOf (_SortRun dts).2).get ⟨p, hp'⟩ =
      ((_SortRun dts).2.get ⟨p, h⟩).originalIndex := by
    simp [idxOf]
  rw [← hgetp]
  exact acc_of_mem_sortRun dts p hp'

/-- The dependent flag of a main-pass entry reflects the dependent list. -/
theorem sortRun_flag_iff (dts : List HdStDrawTarget) :
    ∀ e ∈ (_SortRun dts).2,
      (e.hasDependentDrawTargets = true ↔
        ∃ j, j < dts.length ∧ _IsDependentOn dts j e.originalIndex = true) := by
  intro e he
  rw [sortRun_flags dts e he]
  rw [Bool.not_eq_true', List.isEmpty_eq_false]
  constructor
  · intro hne
    obtain ⟨j, hj⟩ := List.exists_mem_of_ne_nil _ hne
    exact ⟨j, mem_indexToDependents.mp hj⟩
  · intro ⟨j, hj⟩ hnil
    have : j ∈ indexToDependents dts e.originalIndex := mem_indexToDependents.mpr hj
    rw [hnil] at this
    exact List.not_mem_nil j this

/-!
## Lemmas: Sync
-/

/-- The render-state loop rewrites only the render-pass state and lighting
shader of an entry; its target pointer and cached version are untouched. -/
theorem syncRenderPassState_preserves {delegate : HdSceneDelegate}
    {task : HdxDrawTargetTask} {info info' : _RenderPassInfo}
    (h : _SyncRenderPassState delegate task info = some info') :
    info'.target = info.target ∧ info'.version = info.version := by
  unfold _SyncRenderPassState at h
  simp only [] at h
  cases hcam : delegate.getCamera
      (delegate.derefDrawTarget info.target).renderPassState.camera with
  | none =>
    rw [hcam] at h
    cases h
  | some camera =>
    rw [hcam] at h
    obtain rfl := Option.some.inj h
    exact ⟨rfl, rfl⟩

theorem syncRenderPassStates_preserves (delegate : HdSceneDelegate)
    (task : HdxDrawTargetTask) :
    ∀ infos, (_SyncRenderPassStates delegate task infos).1.map
        (fun i => (i.target, i.version)) =
      infos.map (fun i => (i.target, i.version)) := by
  intro infos
  induction infos with
  | nil => rfl
  | cons info rest ih =>
    unfold _SyncRenderPassStates
    cases hs : _SyncRenderPassState delegate task info with
    | none => rfl
    | some info' =>
      obtain ⟨ht, hv⟩ := syncRenderPassState_preserves hs
      simp only [List.map_cons, ih, ht, hv]

/-- If every entry's camera resolves, the render-state loop is not aborted. -/
theorem syncRenderPassStates_no_abort (delegate : HdSceneDelegate)
    (task : HdxDrawTargetTask) :
    ∀ infos,
      (∀ info ∈ infos, (delegate.getCamera
        (delegate.derefDrawTarget info.target).renderPassState.camera).isSome) →
      (_SyncRenderPassStates delegate task infos).2 = false := by
  intro infos
  induction infos with
  | nil => intro _; rfl
  | cons info rest ih =>
    intro hall
    unfold _SyncRenderPassStates
    cases hs : _SyncRenderPassState delegate task info with
    | none =>
      exfalso
      have := hall info (List.mem_cons_self _ _)
      obtain ⟨camera, hcam⟩ := Option.isSome_iff_exists.mp this
      unfold _SyncRenderPassState at hs
      simp only [] at hs
      rw [hcam] at hs
      cases hs
    | some info' =>
      simpa using ih (fun i hi => hall i (List.mem_cons_of_mem _ hi))

/-- Every entry of the full sort result carries the input draw target at its
original index, which is in range. -/
theorem sortDrawTargets_wf (dts : List HdStDrawTarget) :
    ∀ e ∈ _SortDrawTargets dts,
      e.drawTarget = dts.getD e.originalIndex default ∧ e.originalIndex < dts.length := by
  intro e he
  rw [sortDrawTargets_eq] at he
  rcases List.mem_append.mp he with h | h
  · refine ⟨sortRun_wf dts e h, ?_⟩
    apply sortRun_bounded dts
    unfold idxOf
    exact List.mem_map_of_mem _ h
  · unfold _CycleAppendix at h
    have hspec := entry_of_mem_filterMap h
    exact ⟨hspec.2.2.1, List.mem_range.mp hspec.1⟩

theorem sortDrawTargets_mem (dts : List HdStDrawTarget) :
    ∀ e ∈ _SortDrawTargets dts, e.drawTarget ∈ dts := by
  intro e he
  obtain ⟨hdraw, hlt⟩ := sortDrawTargets_wf dts e he
  rw [hdraw, List.getD_eq_getElem _ _ hlt]
  exact List.getElem_mem _

theorem syncFinish_task_passes (task : HdxDrawTargetTask) (delegate : HdSceneDelegate)
    (dirtyBits : HdDirtyBits) :
    (_SyncFinish task delegate dirtyBits).task.renderPasses = task.renderPasses := by
  unfold _SyncFinish
  simp only []
  split <;> rfl

theorem syncFinish_ctx (task : HdxDrawTargetTask) (delegate : HdSceneDelegate)
    (dirtyBits : HdDirtyBits) :
    (_SyncFinish task delegate dirtyBits).ctxDrawTargetRenderPasses =
      some task.renderPasses := by
  unfold _SyncFinish
  simp only []
  split <;> rfl

theorem syncFinish_infos_map (task : HdxDrawTargetTask) (delegate : HdSceneDelegate)
    (dirtyBits : HdDirtyBits) :
    (_SyncFinish task delegate dirtyBits).task.renderPassesInfo.map
        (fun i => (i.target, i.version)) =
      task.renderPassesInfo.map (fun i => (i.target, i.version)) := by
  unfold _SyncFinish
  simp only []
  split
  · exact syncRenderPassStates_preserves delegate task task.renderPassesInfo
  · exact syncRenderPassStates_preserves delegate task task.renderPassesInfo

theorem syncFinish_dirtyBits (task : HdxDrawTargetTask) (delegate : HdSceneDelegate)
    (dirtyBits : HdDirtyBits) :
    (_SyncFinish task delegate dirtyBits).dirtyBits = HdDirtyBits.clean ∨
      (_SyncFinish task delegate dirtyBits).dirtyBits = dirtyBits := by
  unfold _SyncFinish
  simp only []
  split
  · exact Or.inr rfl
  · exact Or.inl rfl

theorem syncFinish_clean (task : HdxDrawTargetTask) (delegate : HdSceneDelegate)
    (dirtyBits : HdDirtyBits)
    (hcams : ∀ info ∈ task.renderPassesInfo, (delegate.getCamera
      (delegate.derefDrawTarget info.target).renderPassState.camera).isSome) :
    (_SyncFinish task delegate dirtyBits).dirtyBits = HdDirtyBits.clean := by
  unfold _SyncFinish
  simp only []
  have hno := syncRenderPassStates_no_abort delegate task task.renderPassesInfo hcams
  split
  · next hloop =>
    rw [hno] at hloop
    cases hloop
  · rfl

theorem syncVersionStep_fresh (task : HdxDrawTargetTask) (delegate : HdSceneDelegate)
    (hfresh : task.currentDrawTargetSetVersion = delegate.drawTargetSetVersion) :
    _SyncVersionStep task delegate =
      { task with
          renderPassesInfo :=
            (_UpdateRenderPasses delegate task.renderPassesInfo task.renderPasses).1
          renderPasses :=
            (_UpdateRenderPasses delegate task.renderPassesInfo task.renderPasses).2 } := by
  unfold _SyncVersionStep
  rw [if_neg]
  simp [hfresh]

theorem mem_updateRenderPasses_fst {delegate : HdSceneDelegate}
    {infos : List _RenderPassInfo} {passes : List HdxDrawTargetRenderPass}
    {info : _RenderPassInfo}
    (h : info ∈ (_UpdateRenderPasses delegate infos passes).1) :
    ∃ info0 ∈ infos, info.target = info0.target := by
  unfold _UpdateRenderPasses at h
  simp only [List.map_map, List.mem_map] at h
  obtain ⟨ip, hip, rfl⟩ := h
  have hmem : ip.1 ∈ infos := List.of_mem_zip hip |>.1
  refine ⟨ip.1, hmem, ?_⟩
  simp only [Function.comp]
  split <;> rfl

theorem sync_params_fail (task : HdxDrawTargetTask) (delegate : HdSceneDelegate)
    (dirtyBits : HdDirtyBits)
    (hb : dirtyBits.dirtyParams = true) (hp : delegate.taskParams = none) :
    task.Sync delegate dirtyBits =
      { task := task, ctxDrawTargetRenderPasses := none, dirtyBits := dirtyBits } := by
  unfold HdxDrawTargetTask.Sync
  rw [if_pos hb, hp]

theorem sync_eq_main (task : HdxDrawTargetTask) (delegate : HdSceneDelegate)
    (dirtyBits : HdDirtyBits)
    (hparams : dirtyBits.dirtyParams = true → delegate.taskParams ≠ none) :
    ∃ task', task.Sync delegate dirtyBits = _SyncMain task' delegate dirtyBits ∧
      task'.renderPassesInfo = task.renderPassesInfo ∧
      task'.renderPasses = task.renderPasses ∧
      task'.currentDrawTargetSetVersion = task.currentDrawTargetSetVersion := by
  unfold HdxDrawTargetTask.Sync
  by_cases hb : dirtyBits.dirtyParams
  · obtain ⟨params, hp⟩ := Option.ne_none_iff_exists'.mp (hparams hb)
    rw [if_pos hb, hp]
    exact ⟨_, rfl, rfl, rfl, rfl⟩
  · rw [if_neg hb]
    exact ⟨task, rfl, rfl, rfl, rfl⟩

theorem syncMain_eq (task : HdxDrawTargetTask) (delegate : HdSceneDelegate)
    (dirtyBits : HdDirtyBits) :
    ∃ task', _SyncMain task delegate dirtyBits =
      _SyncFinish (_SyncVersionStep task' delegate) delegate dirtyBits ∧
      task'.renderPassesInfo = task.renderPassesInfo ∧
      task'.renderPasses = task.renderPasses ∧
      task'.currentDrawTargetSetVersion = task.currentDrawTargetSetVersion := by
  unfold _SyncMain
  by_cases hrt : dirtyBits.dirtyRenderTags
  · simp only [hrt, if_true]
    exact ⟨_, rfl, rfl, rfl, rfl⟩
  · simp only [Bool.not_eq_true] at hrt
    simp only [hrt, Bool.false_eq_true, if_false]
    exact ⟨task, rfl, rfl, rfl, rfl⟩

/-- On the fresh path, the new pass list and the (target, cached version)
rows of the info list are exactly those produced by the per-target refresh. -/
theorem sync_fresh_spec (task : HdxDrawTargetTask) (delegate : HdSceneDelegate)
    (dirtyBits : HdDirtyBits)
    (hfresh : task.currentDrawTargetSetVersion = delegate.drawTargetSetVersion)
    (hparams : dirtyBits.dirtyParams = true → delegate.taskParams ≠ none) :
    (task.Sync delegate dirtyBits).task.renderPasses =
      (_UpdateRenderPasses delegate task.renderPassesInfo task.renderPasses).2 ∧
    (task.Sync delegate dirtyBits).task.renderPassesInfo.map
        (fun i => (i.target, i.version)) =
      (_UpdateRenderPasses delegate task.renderPassesInfo task.renderPasses).1.map
        (fun i => (i.target, i.version)) := by
  obtain ⟨t1, hsync, hinfos1, hpasses1, hver1⟩ :=
    sync_eq_main task delegate dirtyBits hparams
  obtain ⟨t2, hmain, hinfos2, hpasses2, hver2⟩ := syncMain_eq t1 delegate dirtyBits
  rw [hsync, hmain]
  have hfresh2 : t2.currentDrawTargetSetVersion = delegate.drawTargetSetVersion := by
    rw [hver2, hver1, hfresh]
  rw [syncVersionStep_fresh t2 delegate hfresh2]
  constructor
  · rw [syncFinish_task_passes]
    show (_UpdateRenderPasses delegate t2.renderPassesInfo t2.renderPasses).2 = _
    rw [hinfos2, hinfos1, hpasses2, hpasses1]
  · rw [syncFinish_infos_map]
    show (_UpdateRenderPasses delegate t2.renderPassesInfo t2.renderPasses).1.map _ = _
    rw [hinfos2, hinfos1, hpasses2, hpasses1]

theorem sync_dirtyBits_dichotomy (task : HdxDrawTargetTask)
    (delegate : HdSceneDelegate) (dirtyBits : HdDirtyBits) :
    (task.Sync delegate dirtyBits).dirtyBits = HdDirtyBits.clean ∨
      (task.Sync delegate dirtyBits).dirtyBits = dirtyBits := by
  unfold HdxDrawTargetTask.Sync
  have hmain : ∀ t, (_SyncMain t delegate dirtyBits).dirtyBits = HdDirtyBits.clean ∨
      (_SyncMain t delegate dirtyBits).dirtyBits = dirtyBits := by
    intro t
    obtain ⟨t', heq, -, -, -⟩ := syncMain_eq t delegate dirtyBits
    rw [heq]
    exact syncFinish_dirtyBits _ delegate dirtyBits
  by_cases hb : dirtyBits.dirtyParams
  · rw [if_pos hb]
    cases hp : delegate.taskParams with
    | none => exact Or.inr rfl
    | some params => exact hmain _
  · rw [if_neg hb]
    exact hmain task

/-- When the parameter fetch succeeds (or is not needed) and every draw
target reachable this frame resolves its camera, `Sync` runs to completion
and clears the dirty bits. -/
theorem sync_clean (task : HdxDrawTargetTask) (delegate : HdSceneDelegate)
    (dirtyBits : HdDirtyBits)
    (hparams : dirtyBits.dirtyParams = true → delegate.taskParams ≠ none)
    (hcamsOld : ∀ info ∈ task.renderPassesInfo, (delegate.getCamera
      (delegate.derefDrawTarget info.target).renderPassState.camera).isSome)
    (hscene : ∀ t ∈ delegate.drawTargets, delegate.findDrawTarget t.id = some t ∧
      (delegate.getCamera t.renderPassState.camera).isSome) :
    (task.Sync delegate dirtyBits).dirtyBits = HdDirtyBits.clean := by
  obtain ⟨t1, hsync, hinfos1, hpasses1, hver1⟩ :=
    sync_eq_main task delegate dirtyBits hparams
  obtain ⟨t2, hmain, hinfos2, hpasses2, hver2⟩ := syncMain_eq t1 delegate dirtyBits
  rw [hsync, hmain]
  apply syncFinish_clean
  intro info hinfo
  unfold _SyncVersionStep at hinfo
  by_cases hv : (t2.currentDrawTargetSetVersion != delegate.drawTargetSetVersion) = true
  · rw [if_pos hv] at hinfo
    have hinfo' : info ∈ (_BuildRenderPasses (_SortDrawTargets delegate.drawTargets)).2 :=
      hinfo
    unfold _BuildRenderPasses at hinfo'
    simp only [List.mem_map] at hinfo'
    obtain ⟨e, he, rfl⟩ := hinfo'
    have hmem : e.drawTarget ∈ delegate.drawTargets :=
      sortDrawTargets_mem _ e (List.mem_of_mem_filter he)
    obtain ⟨hfind, hcam⟩ := hscene _ hmem
    show (delegate.getCamera
      (delegate.derefDrawTarget e.drawTarget.id).renderPassState.camera).isSome
    unfold HdSceneDelegate.derefDrawTarget
    rw [hfind]
    exact hcam
  · rw [if_neg hv] at hinfo
    have hinfo' : info ∈
        (_UpdateRenderPasses delegate t2.renderPassesInfo t2.renderPasses).1 := hinfo
    obtain ⟨info0, hmem0, htgt⟩ := mem_updateRenderPasses_fst hinfo'
    rw [htgt]
    rw [hinfos2, hinfos1] at hmem0
    exact hcamsOld info0 hmem0

/-- The fresh-path refresh with exactly one stale entry: row `k` gets the
live version and surface; every other row of both vectors is unchanged. -/
theorem updateRenderPasses_one_stale (delegate : HdSceneDelegate)
    (infos : List _RenderPassInfo) (passes : List HdxDrawTargetRenderPass)
    (hlen : infos.length = passes.length)
    (k : Nat) (hk1 : k < infos.length) (hk2 : k < passes.length)
    (hstale : (delegate.derefDrawTarget (infos.get ⟨k, hk1⟩).target).version ≠
      (infos.get ⟨k, hk1⟩).version)
    (hothers : ∀ j (hj : j < infos.length), j ≠ k →
      (delegate.derefDrawTarget (infos.get ⟨j, hj⟩).target).version =
        (infos.get ⟨j, hj⟩).version) :
    (_UpdateRenderPasses delegate infos passes).1.map (fun i => (i.target, i.version)) =
      (infos.map (fun i => (i.target, i.version))).set k
        ((infos.get ⟨k, hk1⟩).target,
         (delegate.derefDrawTarget (infos.get ⟨k, hk1⟩).target).version) ∧
    (_UpdateRenderPasses delegate infos passes).2 =
      passes.set k { passes.get ⟨k, hk2⟩ with
        drawTarget :=
          (delegate.derefDrawTarget (infos.get ⟨k, hk1⟩).target).glfDrawTarget } := by
  have hul1 : (_UpdateRenderPasses delegate infos passes).1.length = infos.length := by
    unfold _UpdateRenderPasses
    simp [hlen]
  have hul2 : (_UpdateRenderPasses delegate infos passes).2.length = passes.length := by
    unfold _UpdateRenderPasses
    simp [hlen]
  constructor
  · apply List.ext_getElem
    · simp [hul1]
    · intro j hja hjb
      have hji : j < infos.length := by
        simp [hul1] at hja
        omega
      have hjp : j < passes.length := by omega
      simp only [_UpdateRenderPasses, List.map_map, List.getElem_map, List.getElem_zip,
        List.getElem_set, Function.comp]
      by_cases hjk : j = k
      · subst hjk
        have hcond : (infos[j].version != (delegate.derefDrawTarget infos[j].target).version) = true := by
          rw [bne_iff_ne]
          rw [List.get_eq_getElem] at hstale
          exact fun h => hstale (h.symm)
        simp only [hcond, if_true, if_pos]
        rw [List.get_eq_getElem]
      · have hcond : (infos[j].version != (delegate.derefDrawTarget infos[j].target).version) = false := by
          rw [bne_eq_false_iff_eq]
          have := hothers j hji hjk
          rw [List.get_eq_getElem] at this
          exact this.symm
        simp only [hcond, Bool.false_eq_true, if_false, if_neg (Ne.symm hjk)]
  · apply List.ext_getElem
    · simp [hul2]
    · intro j hja hjb
      have hjp : j < passes.length := by
        simp [hul2] at hja
        omega
      have hji : j < infos.length := by omega
      simp only [_UpdateRenderPasses, List.map_map, List.getElem_map, List.getElem_zip,
        List.getElem_set, Function.comp]
      by_cases hjk : j = k
      · subst hjk
        have hcond : (infos[j].version != (delegate.derefDrawTarget infos[j].target).version) = true := by
          rw [bne_iff_ne]
          rw [List.get_eq_getElem] at hstale
          exact fun h => hstale (h.symm)
        simp only [hcond, if_true, if_pos]
        rw [List.get_eq_getElem, List.get_eq_getElem]
      · have hcond : (infos[j].version != (delegate.derefDrawTarget infos[j].target).version) = false := by
          rw [bne_eq_false_iff_eq]
          have := hothers j hji hjk
          rw [List.get_eq_getElem] at this
          exact this.symm
        simp only [hcond, Bool.false_eq_true, if_false, if_neg (Ne.symm hjk)]

/-- The loop-issued events of `Execute`, extracted from the full trace: per
pass, in stored order — bind, draw, unbind, and a resolve exactly when the
pass carries the dependent flag (and has a surface). -/
theorem execute_filter_passEvents (task : HdxDrawTargetTask) :
    (task.Execute).filter _IsPassEvent =
      (List.range task.renderPasses.length).flatMap (fun renderPassIdx =>
        _ExecutePassEvents (task.renderPasses.getD renderPassIdx default)
          renderPassIdx) := by
  unfold HdxDrawTargetTask.Execute
  rw [List.filter_append, List.filter_append, List.filter_append]
  have hpro : (List.filter _IsPassEvent
      (if !task.depthBiasUseDefault then
        if task.depthBiasEnable then
          [.glPolygonOffsetFill true,
           .glPolygonOffsetArgs task.depthBiasSlopeFactor task.depthBiasConstantFactor]
        else [.glPolygonOffsetFill false]
      else [])) = [] := by
    split
    · split <;> rfl
    · rfl
  have hmid : (List.filter _IsPassEvent
      ((List.range task.renderPasses.length).flatMap (fun renderPassIdx =>
        _ExecutePassEvents (task.renderPasses.getD renderPassIdx default)
          renderPassIdx))) =
      (List.range task.renderPasses.length).flatMap (fun renderPassIdx =>
        _ExecutePassEvents (task.renderPasses.getD renderPassIdx default)
          renderPassIdx) := by
    apply List.filter_eq_self.mpr
    intro e he
    obtain ⟨idx, -, he⟩ := List.mem_flatMap.mp he
    unfold _ExecutePassEvents at he
    rcases List.mem_append.mp he with h | h
    · simp only [List.mem_cons, List.not_mem_nil, or_false] at h
      rcases h with rfl | rfl | rfl <;> rfl
    · split at h
      · split at h
        · simp only [List.mem_singleton] at h
          subst h
          rfl
        · cases h
      · cases h
  rw [hpro, hmid]
  simp [_IsPassEvent]

/-- The projection stored by the render-state loop records the conform call:
camera projection, window policy, and the guarded aspect ratio, then the
fixed y-flip. -/
theorem syncRenderPassState_projection {delegate : HdSceneDelegate}
    {task : HdxDrawTargetTask} {info : _RenderPassInfo}
    {target : HdStDrawTarget} {camera : HdCamera}
    (htgt : delegate.findDrawTarget info.target = some target)
    (hcam : delegate.getCamera target.renderPassState.camera = some camera) :
    ∃ info', _SyncRenderPassState delegate task info = some info' ∧
      info'.renderPassState.projectionMatrix =
        GfMatrix4d.yflipped (GfMatrix4d.conformed camera.projectionMatrix
          camera.windowPolicy (_ConformAspect target.resolution)) := by
  have hderef : delegate.derefDrawTarget info.target = target := by
    unfold HdSceneDelegate.derefDrawTarget
    rw [htgt]
    rfl
  unfold _SyncRenderPassState
  simp only []
  rw [hderef, hcam]
  exact ⟨_, rfl, rfl⟩

/-!
## Lemmas: the concrete scenes
-/

/-- In the acyclic two-target scene the only dependency edge is
`B (index 0) depends on A (index 1)`. -/
theorem cexScene_edge (a b : Nat) (h : _IsDependentOn cexScene a b = true) :
    a = 0 ∧ b = 1 := by
  match a, b with
  | 0, 0 => exact absurd h (by decide)
  | 0, 1 => exact ⟨rfl, rfl⟩
  | 0, b + 2 =>
    exfalso
    have hd : cexScene.getD (b + 2) default = default :=
      List.getD_eq_default _ _ (show 2 ≤ b + 2 by omega)
    rw [_IsDependentOn, hd] at h
    simp only [Bool.and_eq_true] at h
    exact absurd h.2 (by decide)
  | 1, 0 => exact absurd h (by decide)
  | 1, 1 => exact absurd h (by decide)
  | 1, b + 2 =>
    exfalso
    have hd : cexScene.getD (b + 2) default = default :=
      List.getD_eq_default _ _ (show 2 ≤ b + 2 by omega)
    rw [_IsDependentOn, hd] at h
    simp only [Bool.and_eq_true] at h
    exact absurd h.2 (by decide)
  | a + 2, b =>
    exfalso
    have : _IsDependentOn cexScene (a + 2) b = false :=
      isDependentOn_eq_false_of_ge (show cexScene.length ≤ a + 2 by show 2 ≤ a + 2; omega) b
    rw [this] at h
    cases h

/-- The two-target scene `B depends on A` is acyclic. -/
theorem cexScene_acyclic : ∀ i, ¬ Relation.TransGen (DepEdge cexScene) i i := by
  have hre : ∀ a b, Relation.TransGen (DepEdge cexScene) a b → a = 0 ∧ b = 1 := by
    intro a b h
    induction h with
    | single h => exact cexScene_edge _ _ h
    | tail hab hbc ih =>
      obtain ⟨ha, hb⟩ := ih
      obtain ⟨h1, -⟩ := cexScene_edge _ _ hbc
      omega
  intro i h
  obtain ⟨h0, h1⟩ := hre i i h
  omega

/-- In the two-cycle scene neither index 0 nor index 1 is accessible. -/
theorem cexCyc_not_acc : ∀ x, Acc (RevDep [cexCycA, cexB]) x → ¬(x = 0 ∨ x = 1) := by
  intro x hacc
  induction hacc with
  | intro y hy ih =>
    rintro (rfl | rfl)
    · exact ih 1 (show _IsDependentOn [cexCycA, cexB] 0 1 = true by decide) (Or.inr rfl)
    · exact ih 0 (show _IsDependentOn [cexCycA, cexB] 1 0 = true by decide) (Or.inl rfl)

/-!
## The claims
-/

/-- C1: for every input sequence of draw targets whose dependency graph (per
the path-containment heuristic) is acyclic, the order produced by the
topological sort is valid: whenever the entry at position `p` depends on the
entry at position `q`, position `q` comes strictly before position `p`. -/
theorem c1_topological_sort_valid (dts : List HdStDrawTarget)
    (hacyc : ∀ i, ¬ Relation.TransGen (DepEdge dts) i i)
    (p q : Nat) (hp : p < (_SortDrawTargets dts).length)
    (hq : q < (_SortDrawTargets dts).length)
    (hdep : _IsDependentOn dts ((_SortDrawTargets dts).get ⟨p, hp⟩).originalIndex
      ((_SortDrawTargets dts).get ⟨q, hq⟩).originalIndex = true) :
    q < p := by
  have heq := sortDrawTargets_of_acyclic dts hacyc
  have hp' : p < (_SortRun dts).2.length := by rw [← heq]; exact hp
  have hq' : q < (_SortRun dts).2.length := by rw [← heq]; exact hq
  have hgp : (_SortDrawTargets dts).get ⟨p, hp⟩ = (_SortRun dts).2.get ⟨p, hp'⟩ :=
    List.get_of_eq heq _
  have hgq : (_SortDrawTargets dts).get ⟨q, hq⟩ = (_SortRun dts).2.get ⟨q, hq'⟩ :=
    List.get_of_eq heq _
  rw [hgp, hgq] at hdep
  exact sortRun_topological dts p q hp' hq' hdep

/-- C1 witness: in the scene `[B, A]` where `B` (index 0) depends on `A`
(index 1), `A`'s entry (position 0) precedes `B`'s (position 1). -/
theorem c1_witness : (0 : Nat) < 1 :=
  c1_topological_sort_valid cexScene cexScene_acyclic 1 0
    (by decide) (by decide) (by decide)

/-- C2: `Execute` walks the stored schedule in order, and for each entry
issues bind, draw, unbind, then a resolve exactly when the entry's
`hasDependentDrawTargets` flag is set (and its surface exists); for the
concrete schedule built by `Sync` from `B depends on A`, the draw/resolve
sequence is: draw A (pass 0), resolve A's surface, draw B (pass 1), and B's
surface is never resolved. -/
theorem c2_execute_resolve_order :
    (∀ task : HdxDrawTargetTask,
      (task.Execute).filter _IsPassEvent =
        (List.range task.renderPasses.length).flatMap (fun renderPassIdx =>
          [.bindPass renderPassIdx, .drawPass renderPassIdx, .unbindPass renderPassIdx] ++
            (if (task.renderPasses.getD renderPassIdx default).hasDependentDrawTargets then
              match (task.renderPasses.getD renderPassIdx default).drawTarget with
              | some target => [.resolveTarget target]
              | none => []
            else []))) ∧
    (HdxDrawTargetTask.Execute cexSyncedTask).filter _IsDrawOrResolve =
      [.drawPass 0, .resolveTarget ⟨10⟩, .drawPass 1] ∧
    ExecuteEvent.resolveTarget ⟨11⟩ ∉ HdxDrawTargetTask.Execute cexSyncedTask := by
  refine ⟨?_, by decide, by decide⟩
  intro task
  exact execute_filter_passEvents task

/-- C3: the depth-function resolution is exactly the fixed 2x8 table:
`Nearest` keeps the requested function; `Farthest` maps
Never→Never, Less→GEqual, Equal→Equal, LEqual→Greater, Greater→LEqual,
NotEqual→NotEqual, GEqual→Less, Always→Always. -/
theorem c3_depth_func_table :
    (∀ f, HdxDrawTargetTask_GetResolvedDepthFunc f .HdDepthPriorityNearest = f) ∧
    HdxDrawTargetTask_GetResolvedDepthFunc .HdCmpFuncNever .HdDepthPriorityFarthest =
      .HdCmpFuncNever ∧
    HdxDrawTargetTask_GetResolvedDepthFunc .HdCmpFuncLess .HdDepthPriorityFarthest =
      .HdCmpFuncGEqual ∧
    HdxDrawTargetTask_GetResolvedDepthFunc .HdCmpFuncEqual .HdDepthPriorityFarthest =
      .HdCmpFuncEqual ∧
    HdxDrawTargetTask_GetResolvedDepthFunc .HdCmpFuncLEqual .HdDepthPriorityFarthest =
      .HdCmpFuncGreater ∧
    HdxDrawTargetTask_GetResolvedDepthFunc .HdCmpFuncGreater .HdDepthPriorityFarthest =
      .HdCmpFuncLEqual ∧
    HdxDrawTargetTask_GetResolvedDepthFunc .HdCmpFuncNotEqual .HdDepthPriorityFarthest =
      .HdCmpFuncNotEqual ∧
    HdxDrawTargetTask_GetResolvedDepthFunc .HdCmpFuncGEqual .HdDepthPriorityFarthest =
      .HdCmpFuncLess ∧
    HdxDrawTargetTask_GetResolvedDepthFunc .HdCmpFuncAlways .HdDepthPriorityFarthest =
      .HdCmpFuncAlways := by
  refine ⟨fun f => ?_, rfl, rfl, rfl, rfl, rfl, rfl, rfl, rfl⟩
  cases f <;> rfl

/-- C4: for every input — empty and cyclic included — the sort emits exactly
one entry per input target: the result length equals the input length and the
multiset of original indices is exactly `0, ..., n-1`. -/
theorem c4_sort_totality (dts : List HdStDrawTarget) :
    (_SortDrawTargets dts).length = dts.length ∧
    (idxOf (_SortDrawTargets dts)).Perm (List.range dts.length) := by
  have hperm := sortDrawTargets_perm dts
  refine ⟨?_, hperm⟩
  have hlen := hperm.length_eq
  simpa [idxOf] using hlen

/-- C5: targets the main pass cannot schedule (those whose index is not
accessible along the dependency relation, i.e. caught in or behind a cycle)
are appended after every main-pass entry, in original discovery order, with
`hasDependentDrawTargets` false; a 2-cycle `A ↔ B` yields exactly the two
entries in original order, both flags false. -/
theorem c5_cycle_fallback :
    (∀ (dts : List HdStDrawTarget) (p q : Nat)
        (hp : p < (_SortDrawTargets dts).length)
        (hq : q < (_SortDrawTargets dts).length),
      (¬ Acc (RevDep dts) ((_SortDrawTargets dts).get ⟨p, hp⟩).originalIndex →
        ((_SortDrawTargets dts).get ⟨p, hp⟩).hasDependentDrawTargets = false) ∧
      (¬ Acc (RevDep dts) ((_SortDrawTargets dts).get ⟨p, hp⟩).originalIndex →
        Acc (RevDep dts) ((_SortDrawTargets dts).get ⟨q, hq⟩).originalIndex →
        q < p) ∧
      (p < q →
        ¬ Acc (RevDep dts) ((_SortDrawTargets dts).get ⟨p, hp⟩).originalIndex →
        ¬ Acc (RevDep dts) ((_SortDrawTargets dts).get ⟨q, hq⟩).originalIndex →
        ((_SortDrawTargets dts).get ⟨p, hp⟩).originalIndex <
          ((_SortDrawTargets dts).get ⟨q, hq⟩).originalIndex)) ∧
    _SortDrawTargets [cexCycA, cexB] =
      [⟨0, cexCycA, false⟩, ⟨1, cexB, false⟩] := by
  refine ⟨?_, by decide⟩
  intro dts p q hp hq
  have heq := sortDrawTargets_eq dts
  have hlen : (_SortDrawTargets dts).length =
      (_SortRun dts).2.length + (_CycleAppendix dts).length := by
    rw [heq, List.length_append]
  have hmain : ∀ (r : Nat) (hr : r < (_SortDrawTargets dts).length)
      (hrlow : r < (_SortRun dts).2.length),
      (_SortDrawTargets dts).get ⟨r, hr⟩ = (_SortRun dts).2.get ⟨r, hrlow⟩ := by
    intro r hr hrlow
    have haux : r < ((_SortRun dts).2 ++ _CycleAppendix dts).length := by
      rw [← heq]
      exact hr
    have h1 : (_SortDrawTargets dts).get ⟨r, hr⟩ =
        ((_SortRun dts).2 ++ _CycleAppendix dts).get ⟨r, haux⟩ := List.get_of_eq heq _
    rw [h1, List.get_eq_getElem, List.get_eq_getElem]
    exact List.getElem_append_left hrlow
  have happx : ∀ (r : Nat) (hr : r < (_SortDrawTargets dts).length)
      (hrhigh : (_SortRun dts).2.length ≤ r)
      (hr2 : r - (_SortRun dts).2.length < (_CycleAppendix dts).length),
      (_SortDrawTargets dts).get ⟨r, hr⟩ =
        (_CycleAppendix dts).get ⟨r - (_SortRun dts).2.length, hr2⟩ := by
    intro r hr hrhigh hr2
    have haux : r < ((_SortRun dts).2 ++ _CycleAppendix dts).length := by
      rw [← heq]
      exact hr
    have h1 : (_SortDrawTargets dts).get ⟨r, hr⟩ =
        ((_SortRun dts).2 ++ _CycleAppendix dts).get ⟨r, haux⟩ := List.get_of_eq heq _
    rw [h1, List.get_eq_getElem, List.get_eq_getElem]
    exact List.getElem_append_right hrhigh
  refine ⟨?_, ?_, ?_⟩
  · intro hnacc
    by_cases hlow : p < (_SortRun dts).2.length
    · exact absurd (by rw [hmain p hp hlow]; exact sortRun_acc_get dts p hlow) hnacc
    · have hhigh : (_SortRun dts).2.length ≤ p := Nat.le_of_not_lt hlow
      have hp2 : p - (_SortRun dts).2.length < (_CycleAppendix dts).length := by omega
      rw [happx p hp hhigh hp2]
      exact cycleAppendix_flags dts _ (List.get_mem _ _ _)
  · intro hnaccp haccq
    have hphigh : (_SortRun dts).2.length ≤ p := by
      by_contra hlow
      push_neg at hlow
      exact hnaccp (by rw [hmain p hp hlow]; exact sortRun_acc_get dts p hlow)
    have hqlow : q < (_SortRun dts).2.length := by
      by_contra hhigh
      push_neg at hhigh
      have hq2 : q - (_SortRun dts).2.length < (_CycleAppendix dts).length := by omega
      rw [happx q hq hhigh hq2] at haccq
      exact cycleAppendix_not_acc dts _ (List.get_mem _ _ _) haccq
    omega
  · intro hpq hnaccp hnaccq
    have hphigh : (_SortRun dts).2.length ≤ p := by
      by_contra hlow
      push_neg at hlow
      exact hnaccp (by rw [hmain p hp hlow]; exact sortRun_acc_get dts p hlow)
    have hqhigh : (_SortRun dts).2.length ≤ q := by omega
    have hp2 : p - (_SortRun dts).2.length < (_CycleAppendix dts).length := by omega
    have hq2 : q - (_SortRun dts).2.length < (_CycleAppendix dts).length := by omega
    rw [happx p hp hphigh hp2, happx q hq hqhigh hq2]
    have hsorted := cycleAppendix_sorted dts
    have hpair := List.pairwise_iff_get.mp hsorted
      ⟨p - (_SortRun dts).2.length, by simpa [idxOf] using hp2⟩
      ⟨q - (_SortRun dts).2.length, by simpa [idxOf] using hq2⟩
      (by simp only [Fin.mk_lt_mk]; omega)
    have hmapp : (idxOf (_CycleAppendix dts)).get
        ⟨p - (_SortRun dts).2.length, by simpa [idxOf] using hp2⟩ =
        ((_CycleAppendix dts).get ⟨p - (_SortRun dts).2.length, hp2⟩).originalIndex := by
      simp [idxOf]
    have hmapq : (idxOf (_CycleAppendix dts)).get
        ⟨q - (_SortRun dts).2.length, by simpa [idxOf] using hq2⟩ =
        ((_CycleAppendix dts).get ⟨q - (_SortRun dts).2.length, hq2⟩).originalIndex := by
      simp [idxOf]
    rw [hmapp, hmapq] at hpair
    exact hpair

/-- C5 witness: in the two-cycle scene both entries are cycle leftovers; the
fallback keeps original discovery order, so the entry at position 0 carries a
smaller original index than the one at position 1. -/
theorem c5_witness :
    ((_SortDrawTargets [cexCycA, cexB]).get ⟨0, by decide⟩).originalIndex <
      ((_SortDrawTargets [cexCycA, cexB]).get ⟨1, by decide⟩).originalIndex := by
  have hnacc : ∀ x, x = 0 ∨ x = 1 → ¬ Acc (RevDep [cexCycA, cexB]) x :=
    fun x hx hacc => cexCyc_not_acc x hacc hx
  exact (c5_cycle_fallback.1 [cexCycA, cexB] 0 1 (by decide) (by decide)).2.2
    (by decide)
    (hnacc _ (Or.inl (by decide)))
    (hnacc _ (Or.inr (by decide)))

/-- C6 counterexample: in the two-cycle scene, draw target 0 depends on draw
target 1, yet the sort's entry for index 1 (a cycle leftover) carries
`hasDependentDrawTargets = false` — the claimed "flag true iff some other
target depends on it" fails. -/
theorem c6_counterexample :
    _IsDependentOn [cexCycA, cexB] 0 1 = true ∧
    ∃ e ∈ _SortDrawTargets [cexCycA, cexB],
      e.originalIndex = 1 ∧ e.hasDependentDrawTargets = false := by
  decide

/-- C6 (amended): when the dependency graph is acyclic, every produced
entry's `hasDependentDrawTargets` flag is true iff at least one other draw
target in the batch depends on it; entries appended by the cycle fallback
always carry the flag false (see the counterexample). -/
theorem c6_flag_iff_dependents (dts : List HdStDrawTarget)
    (hacyc : ∀ i, ¬ Relation.TransGen (DepEdge dts) i i) :
    ∀ e ∈ _SortDrawTargets dts,
      (e.hasDependentDrawTargets = true ↔
        ∃ j, j < dts.length ∧ _IsDependentOn dts j e.originalIndex = true) := by
  intro e he
  rw [sortDrawTargets_of_acyclic dts hacyc] at he
  exact sortRun_flag_iff dts e he

/-- C6 witness: in the acyclic scene, `A`'s entry (original index 1) has the
flag true, matching the existence of its dependent `B` (index 0). -/
theorem c6_witness :
    (⟨1, cexA, true⟩ : _DrawTargetEntry).hasDependentDrawTargets = true ↔
      ∃ j, j < cexScene.length ∧ _IsDependentOn cexScene j 1 = true :=
  c6_flag_iff_dependents cexScene cexScene_acyclic ⟨1, cexA, true⟩ (by decide)

/-- C7: on the fresh path (set version unchanged) with exactly one target
whose live version differs from its cached one, `Sync` refreshes only that
entry's GLF draw-target binding and cached version: the pass list is the old
one with just row `k` rebound, and the `(target, version)` rows of the info
list change only at row `k` — entry count and order are unchanged. -/
theorem c7_incremental_refresh (task : HdxDrawTargetTask)
    (delegate : HdSceneDelegate) (dirtyBits : HdDirtyBits)
    (tgts : Nat → HdStDrawTarget)
    (hfresh : task.currentDrawTargetSetVersion = delegate.drawTargetSetVersion)
    (hparams : dirtyBits.dirtyParams = true → delegate.taskParams ≠ none)
    (hlen : task.renderPassesInfo.length = task.renderPasses.length)
    (htgts : ∀ j (hj : j < task.renderPassesInfo.length),
      delegate.findDrawTarget (task.renderPassesInfo.get ⟨j, hj⟩).target =
        some (tgts j))
    (k : Nat) (hk1 : k < task.renderPassesInfo.length)
    (hk2 : k < task.renderPasses.length)
    (hstale : (tgts k).version ≠ (task.renderPassesInfo.get ⟨k, hk1⟩).version)
    (hothers : ∀ j (hj : j < task.renderPassesInfo.length), j ≠ k →
      (tgts j).version = (task.renderPassesInfo.get ⟨j, hj⟩).version) :
    (task.Sync delegate dirtyBits).task.renderPasses =
      task.renderPasses.set k
        { task.renderPasses.get ⟨k, hk2⟩ with drawTarget := (tgts k).glfDrawTarget } ∧
    (task.Sync delegate dirtyBits).task.renderPassesInfo.map
        (fun i => (i.target, i.version)) =
      (task.renderPassesInfo.map (fun i => (i.target, i.version))).set k
        ((task.renderPassesInfo.get ⟨k, hk1⟩).target, (tgts k).version) := by
  obtain ⟨hpasses, hinfos⟩ := sync_fresh_spec task delegate dirtyBits hfresh hparams
  have hderef : ∀ j (hj : j < task.renderPassesInfo.length),
      delegate.derefDrawTarget (task.renderPassesInfo.get ⟨j, hj⟩).target = tgts j := by
    intro j hj
    unfold HdSceneDelegate.derefDrawTarget
    rw [htgts j hj]
    rfl
  obtain ⟨hu1, hu2⟩ := updateRenderPasses_one_stale delegate task.renderPassesInfo
    task.renderPasses hlen k hk1 hk2
    (by rw [hderef k hk1]; exact hstale)
    (by intro j hj hjk; rw [hderef j hj]; exact hothers j hj hjk)
  constructor
  · rw [hpasses, hu2, hderef k hk1]
  · rw [hinfos, hu1, hderef k hk1]

/-- C7 witness: the concrete fresh-path run where only `/A`'s version has
advanced rebinds exactly `/A`'s pass to the new surface and updates only its
cached version. -/
theorem c7_witness :
    (cexSyncedTask.Sync cexFreshDelegate HdDirtyBits.clean).task.renderPasses =
      cexSyncedTask.renderPasses.set 0
        { cexSyncedTask.renderPasses.get ⟨0, by decide⟩ with
            drawTarget := cexABumped.glfDrawTarget } ∧
    (cexSyncedTask.Sync cexFreshDelegate HdDirtyBits.clean).task.renderPassesInfo.map
        (fun i => (i.target, i.version)) =
      (cexSyncedTask.renderPassesInfo.map (fun i => (i.target, i.version))).set 0
        ((cexSyncedTask.renderPassesInfo.get ⟨0, by decide⟩).target,
          cexABumped.version) :=
  c7_incremental_refresh cexSyncedTask cexFreshDelegate HdDirtyBits.clean
    (fun j => if j = 0 then cexABumped else cexB)
    (by decide) (by decide) (by decide) (by decide) 0 (by decide) (by decide)
    (by decide) (by decide)

/-- C8: the aspect handed to the conform call never divides by zero: it is
the integer quotient width/height when the height is nonzero, and defaults
to 1 when the height is zero; the render-state loop stores the projection
built from exactly that guarded aspect. -/
theorem c8_aspect_guard (delegate : HdSceneDelegate) (task : HdxDrawTargetTask)
    (info : _RenderPassInfo) (target : HdStDrawTarget) (camera : HdCamera)
    (htgt : delegate.findDrawTarget info.target = some target)
    (hcam : delegate.getCamera target.renderPassState.camera = some camera) :
    (∃ info', _SyncRenderPassState delegate task info = some info' ∧
      info'.renderPassState.projectionMatrix =
        GfMatrix4d.yflipped (GfMatrix4d.conformed camera.projectionMatrix
          camera.windowPolicy (_ConformAspect target.resolution))) ∧
    (target.resolution.2 = 0 → _ConformAspect target.resolution = 1) ∧
    (target.resolution.2 ≠ 0 → _ConformAspect target.resolution =
      ((Int.tdiv target.resolution.1 target.resolution.2 : Int) : ℚ)) := by
  refine ⟨syncRenderPassState_projection htgt hcam, ?_, ?_⟩
  · intro h0
    unfold _ConformAspect
    rw [if_neg]
    simp [h0]
  · intro hne
    unfold _ConformAspect
    rw [if_pos hne]

/-- C8 witness: the zero-height target `/Z` is processed without dividing by
zero — its conform aspect is 1. -/
theorem c8_witness :
    (∃ info', _SyncRenderPassState cexZeroDelegate HdxDrawTargetTask.ctor
        cexZeroInfo = some info' ∧
      info'.renderPassState.projectionMatrix =
        GfMatrix4d.yflipped (GfMatrix4d.conformed cexCamera.projectionMatrix
          cexCamera.windowPolicy (_ConformAspect cexZeroH.resolution))) ∧
    (cexZeroH.resolution.2 = 0 → _ConformAspect cexZeroH.resolution = 1) ∧
    (cexZeroH.resolution.2 ≠ 0 → _ConformAspect cexZeroH.resolution =
      ((Int.tdiv cexZeroH.resolution.1 cexZeroH.resolution.2 : Int) : ℚ)) :=
  c8_aspect_guard cexZeroDelegate HdxDrawTargetTask.ctor cexZeroInfo cexZeroH
    cexCamera (by decide) (by decide)

/-- C9 counterexample: an invocation of `Sync` that does not end with the
dirty bits cleared — the parameter-fetch-failure return path leaves the
(non-clean) input mask untouched. -/
theorem c9_counterexample :
    (HdxDrawTargetTask.ctor.Sync cexDelegate
        { dirtyParams := true, dirtyRenderTags := false, otherBits := true }).dirtyBits ≠
      HdDirtyBits.clean := by
  decide

/-- C9 (amended): `Sync` clears the consumed dirty bits (sets the mask to
`Clean`) on its normal completion path; the early returns — parameter fetch
failure and a missing camera — leave the dirty bits exactly as they were, so
every invocation either clears the bits or returns them unchanged. -/
theorem c9_dirty_bits (task : HdxDrawTargetTask) (delegate : HdSceneDelegate)
    (dirtyBits : HdDirtyBits) :
    ((task.Sync delegate dirtyBits).dirtyBits = HdDirtyBits.clean ∨
      (task.Sync delegate dirtyBits).dirtyBits = dirtyBits) ∧
    ((dirtyBits.dirtyParams = true → delegate.taskParams ≠ none) →
      (∀ info ∈ task.renderPassesInfo, (delegate.getCamera
        (delegate.derefDrawTarget info.target).renderPassState.camera).isSome) →
      (∀ t ∈ delegate.drawTargets, delegate.findDrawTarget t.id = some t ∧
        (delegate.getCamera t.renderPassState.camera).isSome) →
      (task.Sync delegate dirtyBits).dirtyBits = HdDirtyBits.clean) ∧
    (dirtyBits.dirtyParams = true → delegate.taskParams = none →
      (task.Sync delegate dirtyBits).dirtyBits = dirtyBits) := by
  refine ⟨sync_dirtyBits_dichotomy task delegate dirtyBits, ?_, ?_⟩
  · intro hparams hcams hscene
    exact sync_clean task delegate dirtyBits hparams hcams hscene
  · intro hb hp
    rw [sync_params_fail task delegate dirtyBits hb hp]

/-- C9 witness: a full, successful `Sync` run ends with the dirty bits
cleared. -/
theorem c9_witness :
    (HdxDrawTargetTask.ctor.Sync cexDelegate HdDirtyBits.clean).dirtyBits =
      HdDirtyBits.clean :=
  (c9_dirty_bits HdxDrawTargetTask.ctor cexDelegate HdDirtyBits.clean).2.1
    (by decide) (by decide) (by decide)

/-- C10: if the parameter dirty bit is set and the task-parameter fetch
fails, `Sync` returns immediately: the task state (entries, cached
draw-target-set version, everything) is unchanged, nothing is published into
the task context, and the dirty bits are not cleared. -/
theorem c10_params_failure (task : HdxDrawTargetTask) (delegate : HdSceneDelegate)
    (dirtyBits : HdDirtyBits)
    (hb : dirtyBits.dirtyParams = true) (hp : delegate.taskParams = none) :
    task.Sync delegate dirtyBits =
      { task := task, ctxDrawTargetRenderPasses := none, dirtyBits := dirtyBits } :=
  sync_params_fail task delegate dirtyBits hb hp

/-- C10 witness: the concrete parameter-failure invocation returns the task
untouched, publishes nothing, and keeps the dirty bits. -/
theorem c10_witness :
    HdxDrawTargetTask.ctor.Sync cexDelegate
        { dirtyParams := true, dirtyRenderTags := false, otherBits := false } =
      { task := HdxDrawTargetTask.ctor, ctxDrawTargetRenderPasses := none,
        dirtyBits :=
          { dirtyParams := true, dirtyRenderTags := false, otherBits := false } } :=
  c10_params_failure HdxDrawTargetTask.ctor cexDelegate
    { dirtyParams := true, dirtyRenderTags := false, otherBits := false }
    (by decide) (by decide)
